import Mathlib

/-!
Shallow embedding of `reconstruct.cpp` (order-book reconstruction from MBO
events) and verification of the specification claims about it.

Modelling conventions, each justified against the source:

* `MboMessage` mirrors the C++ struct field for field.  The C++ stores
  `action` and `side` as `enum class … : char`; any single character can be
  cast into them by `parse`, so both are modelled as `Char`.
* Machine integers are modelled as `Nat` / `Int`.  The only arithmetic the
  engine performs on them is the cancel size update (already floored at zero
  in the source, so no wraparound is possible there) and the snapshot
  accumulation into `uint32_t`, which is modelled with an explicit
  `% 2^32` at every addition.
* `orders_` is a `std::unordered_map<uint64_t, MboMessage>`; it is only ever
  accessed by key (find / emplace / erase / write through a reference), never
  iterated, so an association list with unique keys models it exactly.
  `std::unordered_map::emplace` does NOT overwrite an existing key; `emplace`
  below reproduces that.
* `bids_` / `offers_` are `std::map<int64_t, vector<const MboMessage*>>`:
  modelled as association lists sorted by strictly increasing key, which is
  exactly the iteration order `snapshot` relies on.
* The vectors store pointers.  A pointer either points at the registry node
  for an order id (stable across rehash/insert/erase of other keys) or — in
  the flagged-Add branch `lvl[m.price] = { &m };` — directly at the
  caller-scoped event object.  `Ref.reg id` models the former, `Ref.event m`
  the latter; pointer equality used by `std::remove(vec, &msg)` is equality
  of registry ids, and a registry pointer is never equal to an event pointer.
  Dereferencing a `Ref.reg id` whose id has been erased, or a `Ref.event`
  after its event's lifetime, is undefined behaviour in the C++; `resolveRef`
  returns the registry's current value for the id (`none` when erased), and
  `Ref.event` keeps the value the event had, which is what the C++ reads in
  the only snapshot taken while the event is still alive.
-/

/-- Sentinel for an undefined price: `std::numeric_limits<int64_t>::max()`. -/
def PRICE_UNDEF : Int := 9223372036854775807

/-- One decoded feed record, mirroring `struct MboMessage`. -/
structure MboMessage where
  ts_recv : String
  ts_event : String
  rtype : Nat
  publisher_id : Nat
  instrument_id : Nat
  action : Char
  side : Char
  depth : Int
  price : Int
  size : Nat
  flags : Nat
  ts_in_delta : Int
  sequence : Nat
  symbol : String
  order_id : Nat
deriving Repr, DecidableEq

/-- A ladder-vector entry: a pointer either into the order registry
(`reg id`, the node for that order id) or into the caller-scoped event
object (`event m`, the borrowed pointer stored by the flagged-Add branch). -/
inductive Ref where
  | reg (id : Nat)
  | event (m : MboMessage)
deriving Repr, DecidableEq

/-- The member vector of one price level. -/
abbrev Level := List Ref

/-- One side's `std::map<int64_t, std::vector<const MboMessage*>>`,
as an association list with strictly increasing keys. -/
abbrev Ladder := List (Int × Level)

/-- Registry lookup: `orders_.find(k)`. -/
def ofind (os : List (Nat × MboMessage)) (k : Nat) : Option MboMessage :=
  match os with
  | [] => none
  | kv :: rest => if kv.1 = k then some kv.2 else ofind rest k

/-- Registry `orders_.emplace(k, m)`: inserts only when the key is absent;
an existing entry is left untouched (this is the C++ `emplace` semantics). -/
def emplace (os : List (Nat × MboMessage)) (k : Nat) (m : MboMessage) :
    List (Nat × MboMessage) :=
  match os with
  | [] => [(k, m)]
  | kv :: rest => if kv.1 = k then kv :: rest else kv :: emplace rest k m

/-- Registry write through a reference (`msg = m` or `msg.size = …`). -/
def oset (os : List (Nat × MboMessage)) (k : Nat) (m : MboMessage) :
    List (Nat × MboMessage) :=
  match os with
  | [] => []
  | kv :: rest => if kv.1 = k then (k, m) :: rest else kv :: oset rest k m

/-- Registry `orders_.erase(it)`. -/
def oerase (os : List (Nat × MboMessage)) (k : Nat) : List (Nat × MboMessage) :=
  match os with
  | [] => []
  | kv :: rest => if kv.1 = k then oerase rest k else kv :: oerase rest k

/-- Ladder lookup: `lvl.find(p)` (read-only part of `operator[]`). -/
def lget (l : Ladder) (p : Int) : Option Level :=
  match l with
  | [] => none
  | e :: rest => if e.1 = p then some e.2 else lget rest p

/-- Ladder lookup with the default empty vector. -/
def lgetD (l : Ladder) (p : Int) : Level := (lget l p).getD []

/-- Ladder insert-or-assign at key `p`, keeping the sorted key order that a
`std::map` iterates in: an existing key keeps its position, a new key is
inserted at its sorted place. -/
def lset (l : Ladder) (p : Int) (v : Level) : Ladder :=
  match l with
  | [] => [(p, v)]
  | e :: rest =>
    if p < e.1 then (p, v) :: e :: rest
    else if e.1 = p then (p, v) :: rest
    else e :: lset rest p v

/-- Ladder `lvl.erase(p)`. -/
def lerase (l : Ladder) (p : Int) : Ladder :=
  match l with
  | [] => []
  | e :: rest => if e.1 = p then lerase rest p else e :: lerase rest p

/-- The engine state: `orders_`, `bids_`, `offers_` of `class OrderBook`. -/
structure OrderBook where
  orders : List (Nat × MboMessage)
  bids : Ladder
  offers : Ladder
deriving Repr, DecidableEq

/-- A freshly constructed `OrderBook`. -/
def OrderBook.empty : OrderBook := ⟨[], [], []⟩

/-- `OrderBook::clear`. -/
def OrderBook.clear (_ : OrderBook) : OrderBook := OrderBook.empty

/-- `OrderBook::add`.  With flag bit 6 set the whole side ladder is cleared
and replaced by one level holding the borrowed pointer `&m` into the event;
otherwise `emplace` (insert-only) followed by a push of the registry-node
pointer at the EVENT's price. -/
def OrderBook.add (b : OrderBook) (m : MboMessage) : OrderBook :=
  if m.flags.testBit 6 then
    if m.side = 'B' then { b with bids := [(m.price, [Ref.event m])] }
    else { b with offers := [(m.price, [Ref.event m])] }
  else
    let orders' := emplace b.orders m.order_id m
    let lvl := if m.side = 'B' then b.bids else b.offers
    let lvl' := lset lvl m.price (lgetD lvl m.price ++ [Ref.reg m.order_id])
    if m.side = 'B' then { b with orders := orders', bids := lvl' }
    else { b with orders := orders', offers := lvl' }

/-- `OrderBook::cancel`.  Note that the ladder is selected by the EVENT's
side (`m.side`), the vector is fetched by the STORED order's price via the
creating `operator[]`, `std::remove` erases every pointer equal to the
registry node, and the final empty-vector check erases the (possibly just
created) key. -/
def OrderBook.cancel (b : OrderBook) (m : MboMessage) : OrderBook :=
  match ofind b.orders m.order_id with
  | none => b
  | some msg0 =>
    let newSize := if msg0.size > m.size then msg0.size - m.size else 0
    let msg := { msg0 with size := newSize }
    let orders1 := oset b.orders m.order_id msg
    let lvl := if m.side = 'B' then b.bids else b.offers
    let v1 := (lgetD lvl msg.price).filter (fun r => r ≠ Ref.reg m.order_id)
    let v2 := if newSize ≠ 0 then v1 ++ [Ref.reg m.order_id] else v1
    let orders2 := if newSize ≠ 0 then orders1 else oerase orders1 m.order_id
    let lvl' := if v2 = [] then lerase lvl msg.price else lset lvl msg.price v2
    if m.side = 'B' then { b with orders := orders2, bids := lvl' }
    else { b with orders := orders2, offers := lvl' }

/-- `OrderBook::modify`.  Unknown id falls through to `add(m)` (with the
event's own flags).  For a known id the ladder is selected by the STORED
side; `msg = m` then overwrites the registry node wholesale. -/
def OrderBook.modify (b : OrderBook) (m : MboMessage) : OrderBook :=
  match ofind b.orders m.order_id with
  | none => b.add m
  | some msg =>
    let isBid := msg.side = 'B'
    let lvl := if isBid then b.bids else b.offers
    if msg.price ≠ m.price then
      let v1 := (lgetD lvl msg.price).filter (fun r => r ≠ Ref.reg m.order_id)
      let lvl1 := if v1 = [] then lerase lvl msg.price else lset lvl msg.price v1
      let lvl2 := lset lvl1 m.price (lgetD lvl1 m.price ++ [Ref.reg m.order_id])
      let orders' := oset b.orders m.order_id m
      if isBid then { b with orders := orders', bids := lvl2 }
      else { b with orders := orders', offers := lvl2 }
    else if msg.size < m.size then
      let v1 := (lgetD lvl msg.price).filter (fun r => r ≠ Ref.reg m.order_id)
      let lvl' := lset lvl msg.price (v1 ++ [Ref.reg m.order_id])
      let orders' := oset b.orders m.order_id m
      if isBid then { b with orders := orders', bids := lvl' }
      else { b with orders := orders', offers := lvl' }
    else
      { b with orders := oset b.orders m.order_id m }

/-- `OrderBook::apply`: dispatch on the action character. -/
def OrderBook.apply (b : OrderBook) (m : MboMessage) : OrderBook :=
  if m.action = 'R' then b.clear
  else if m.action = 'A' then b.add m
  else if m.action = 'C' then b.cancel m
  else if m.action = 'M' then b.modify m
  else b

/-- One output row of `snapshot`: `struct PriceLevel`. -/
structure PriceLevel where
  price : Int
  size : Nat
  count : Nat
deriving Repr, DecidableEq

/-- Modulus of the `uint32_t` accumulators in `snapshot`. -/
def U32 : Nat := 4294967296

/-- Dereference one ladder pointer against the current registry. -/
def resolveRef (os : List (Nat × MboMessage)) : Ref → Option MboMessage
  | Ref.reg id => ofind os id
  | Ref.event m => some m

/-- One step of the aggregation loop `sz += p->size; ++ct;`, skipping
references whose message carries flag bit 6. -/
def aggStep (os : List (Nat × MboMessage)) (sc : Nat × Nat) (r : Ref) : Nat × Nat :=
  match resolveRef os r with
  | some p => if p.flags.testBit 6 then sc else ((sc.1 + p.size) % U32, (sc.2 + 1) % U32)
  | none => sc

/-- Aggregate size and count of one level's member vector. -/
def levelAgg (os : List (Nat × MboMessage)) (v : Level) : Nat × Nat :=
  v.foldl (aggStep os) (0, 0)

/-- The snapshot row produced for one ladder entry. -/
def levelRow (os : List (Nat × MboMessage)) (e : Int × Level) : PriceLevel :=
  ⟨e.1, (levelAgg os e.2).1, (levelAgg os e.2).2⟩

/-- The padding row `{ PRICE_UNDEF, 0, 0 }`. -/
def padRow : PriceLevel := ⟨PRICE_UNDEF, 0, 0⟩

/-- Rows emitted for one side: the first `depth` ladder entries in the given
iteration order, padded with `padRow` up to exactly `depth` rows. -/
def sideRows (os : List (Nat × MboMessage)) (entries : Ladder) (depth : Nat) :
    List PriceLevel :=
  (entries.take depth).map (levelRow os) ++
    List.replicate (depth - (entries.take depth).length) padRow

/-- `OrderBook::snapshot`: bids walked in reverse (descending price) then
offers in forward (ascending price) order, each side padded to `depth`. -/
def OrderBook.snapshot (b : OrderBook) (depth : Nat) : List PriceLevel :=
  sideRows b.orders b.bids.reverse depth ++ sideRows b.orders b.offers depth

/-- Keys of the registry, in list order. -/
def okeys (os : List (Nat × MboMessage)) : List Nat := os.map (·.1)

/-- Strictly increasing keys: the `std::map` representation invariant. -/
def LSorted (l : Ladder) : Prop := List.Pairwise (fun a b => a.1 < b.1) l

/-- Total number of occurrences of the registry pointer for `id` across all
level vectors of one ladder. -/
def lcount (id : Nat) (l : Ladder) : Nat :=
  (l.map (fun e => e.2.count (Ref.reg id))).sum

/-- The ladder selected by a side character, as the source's ternary
`side == Side::B ? bids_ : offers_` does (every non-`B` side, including
`A` and `N`, selects the offers). -/
def sideLadder (b : OrderBook) (c : Char) : Ladder :=
  if c = 'B' then b.bids else b.offers

/-- Whether a ladder pointer resolves to a live registry node. -/
def refBackedB (os : List (Nat × MboMessage)) : Ref → Bool
  | Ref.reg id => (ofind os id).isSome
  | Ref.event _ => false

/-- Whether a ladder pointer is a borrowed pointer into a caller-scoped
event value (the dangling-reference hazard of spec §9). -/
def Ref.isEvent : Ref → Bool
  | Ref.reg _ => false
  | Ref.event _ => true

/-- Whether any ladder of the book holds a borrowed caller-scoped pointer. -/
def borrowsEvent (b : OrderBook) : Bool :=
  (b.bids ++ b.offers).any (fun e => e.2.any Ref.isEvent)

/-- The registry/ladder mutual-consistency invariant claimed by spec §3:
unique registry keys, sorted ladders, registry key equals the stored order
id, every registered order referenced by exactly one ladder entry — located
at its stored price on its stored side — and every ladder pointer backed by
a live registry node. -/
def InvBook (b : OrderBook) : Prop :=
  (okeys b.orders).Nodup ∧
  LSorted b.bids ∧ LSorted b.offers ∧
  (∀ kv ∈ b.orders, kv.1 = kv.2.order_id) ∧
  (∀ kv ∈ b.orders,
    lcount kv.1 b.bids + lcount kv.1 b.offers = 1 ∧
    (lgetD (sideLadder b kv.2.side) kv.2.price).count (Ref.reg kv.1) = 1) ∧
  (∀ e ∈ b.bids, ∀ r ∈ e.2, refBackedB b.orders r = true) ∧
  (∀ e ∈ b.offers, ∀ r ∈ e.2, refBackedB b.orders r = true)

instance (l : Ladder) : Decidable (LSorted l) :=
  inferInstanceAs (Decidable (List.Pairwise (fun a b : Int × Level => a.1 < b.1) l))

instance (b : OrderBook) : Decidable (InvBook b) := by
  unfold InvBook
  infer_instance

/-- Events under which one `apply` step preserves `InvBook`: unflagged Adds
with a fresh order id; Cancels and Modifies of a known id whose event side
selects the same ladder as the stored side; Modifies of an unknown id
without the flag.  Every other event class has a concrete counterexample. -/
def tameB (b : OrderBook) (m : MboMessage) : Bool :=
  if m.action = 'A' then
    !m.flags.testBit 6 && (ofind b.orders m.order_id).isNone
  else if m.action = 'C' then
    match ofind b.orders m.order_id with
    | none => true
    | some msg => (m.side == 'B') == (msg.side == 'B')
  else if m.action = 'M' then
    match ofind b.orders m.order_id with
    | none => !m.flags.testBit 6
    | some msg => (m.side == 'B') == (msg.side == 'B')
  else true

/-- Rational truncation toward zero, the behaviour of the C++
`static_cast<int64_t>` on a floating value. -/
def truncZ (x : ℚ) : Int := if 0 ≤ x then ⌊x⌋ else -⌊-x⌋

/-- Decoding the numeric value of a textual price field:
`static_cast<int64_t>(std::stold(field) * PRICE_SCALE)`, with the long
double parse and multiply modelled as exact rational arithmetic followed by
the truncating cast.  The real parse and multiply each round, so for an
in-range value the program's integer can differ from this model's by one
fixed-point (1e-9) unit when the rounded product lands just below the exact
integer; the round-trip theorem therefore quantifies over that one-unit
envelope around the exact value rather than relying on this model's
exactness, and restricts to values inside int64 (outside it the cast is
undefined behaviour and the program has no defined result to model). -/
def decodePrice (q : ℚ) : Int := truncZ (q * 1000000000)

/-- The numeric value re-encoded for a price by
`std::to_string(price / PRICE_SCALE)`: `to_string(double)` renders exactly
six decimal places of the quotient, rounding to nearest.  The int64→double
conversion and the double division are modelled as exact.  That idealization
is sound only for |price| ≤ 2^53: there the conversion is exact and the
division's correctly-rounded error (below 2e-9 of price) cannot move a
six-decimal rendering whose true value sits on the 1e-6 grid, whereas near
int64's limits the conversion error alone (about 1e-6 of price) can; the
round-trip theorem restricts its range accordingly. -/
def encodePrice (p : Int) : ℚ := ((round ((p : ℚ) / 1000000000 * 1000000) : Int) : ℚ) / 1000000

/-- The textual price field of an output row: the sentinel renders as the
empty field (`none`), any other price as its six-decimal numeric value. -/
def encodePriceField (p : Int) : Option ℚ :=
  if p = PRICE_UNDEF then none else some (encodePrice p)

/-- The numeric content of the price field of an input record: an empty
field (`none`) produces the sentinel. -/
def parsePriceField (q : Option ℚ) : Int :=
  match q with
  | none => PRICE_UNDEF
  | some x => decodePrice x

/-- Event literal holding the fields the engine reads; the pass-through
text fields are left empty. -/
def mkEvent (a sd : Char) (p : Int) (sz id fl : Nat) : MboMessage :=
  ⟨"", "", 0, 0, 0, a, sd, 0, p, sz, fl, 0, 0, "", id⟩

/-- Whether the event's side selects the same ladder as the stored side of
the order it names (vacuously true for an unknown id). -/
def sideOk (b : OrderBook) (m : MboMessage) : Bool :=
  match ofind b.orders m.order_id with
  | none => true
  | some msg => (m.side == 'B') == (msg.side == 'B')

/-- Shape stated by the spec for `snapshot`: exactly `depth` rows per side,
bid rows in strictly descending and ask rows in strictly ascending price
order, padded with `padRow` past the book's current depth. -/
def snapshotSpec (b : OrderBook) (d : Nat) : Prop :=
  (b.snapshot d).length = 2 * d ∧
  (∀ i, b.bids.length ≤ i → i < d → (b.snapshot d)[i]? = some padRow) ∧
  (∀ i, d + b.offers.length ≤ i → i < 2 * d → (b.snapshot d)[i]? = some padRow) ∧
  List.Pairwise (fun x y : PriceLevel => x.price > y.price)
    ((b.snapshot d).take (min d b.bids.length)) ∧
  List.Pairwise (fun x y : PriceLevel => x.price < y.price)
    (((b.snapshot d).drop d).take (min d b.offers.length))

/-- Behaviour stated by the spec for Cancel (for an event whose side
selects the stored order's ladder): an unknown id is a no-op; otherwise the
stored size drops by exactly `min(requested, remaining)` and the order is
re-appended to its level, or — when the size reaches zero — the order
leaves the registry and every ladder, with its level erased if now empty. -/
def cancelSpec (b : OrderBook) (m : MboMessage) : Prop :=
  (ofind b.orders m.order_id = none → b.apply m = b) ∧
  (∀ msg0, ofind b.orders m.order_id = some msg0 →
    (msg0.size - min m.size msg0.size ≠ 0 →
      ofind (b.apply m).orders m.order_id =
        some {msg0 with size := msg0.size - min m.size msg0.size} ∧
      lgetD (sideLadder (b.apply m) m.side) msg0.price =
        (lgetD (sideLadder b m.side) msg0.price).filter
          (fun r => r ≠ Ref.reg m.order_id) ++ [Ref.reg m.order_id]) ∧
    (msg0.size - min m.size msg0.size = 0 →
      ofind (b.apply m).orders m.order_id = none ∧
      lcount m.order_id (b.apply m).bids + lcount m.order_id (b.apply m).offers = 0 ∧
      ((lgetD (sideLadder b m.side) msg0.price).filter
          (fun r => r ≠ Ref.reg m.order_id) = [] →
        lget (sideLadder (b.apply m) m.side) msg0.price = none)))

/-- Actual behaviour of a Cancel whose event side selects the OPPOSITE
ladder from the stored order's side: the stored order's own ladder is left
entirely untouched (its reference is never removed), and the engine either
appends a reference into the event-side ladder at the stored price (when
the reduced size is nonzero) or erases the order from the registry while
its old reference stays behind in its original level (when it is zero). -/
def cancelMismatchSpec (b : OrderBook) (m msg0 : MboMessage) : Prop :=
  (sideLadder (b.apply m) msg0.side = sideLadder b msg0.side) ∧
  (msg0.size - min m.size msg0.size ≠ 0 →
    lgetD (sideLadder (b.apply m) m.side) msg0.price =
      lgetD (sideLadder b m.side) msg0.price ++ [Ref.reg m.order_id]) ∧
  (msg0.size - min m.size msg0.size = 0 →
    ofind (b.apply m).orders m.order_id = none ∧
    lcount m.order_id (sideLadder (b.apply m) msg0.side) = 1)

/-! ### Registry lemmas -/

theorem ofind_none_iff (os : List (Nat × MboMessage)) (k : Nat) :
    ofind os k = none ↔ k ∉ okeys os := by
  induction os with
  | nil => simp [ofind, okeys]
  | cons kv rest ih =>
    by_cases hk : kv.1 = k
    · simp [ofind, okeys, hk]
    · simp [ofind, okeys, hk, Ne.symm hk, ih]

theorem mem_of_ofind_eq_some {os : List (Nat × MboMessage)} {k : Nat}
    {v : MboMessage} (h : ofind os k = some v) : (k, v) ∈ os := by
  induction os with
  | nil => simp [ofind] at h
  | cons kv rest ih =>
    by_cases hk : kv.1 = k
    · simp [ofind, hk] at h
      obtain ⟨a, c⟩ := kv
      cases hk
      cases h
      exact List.mem_cons_self _ _
    · simp [ofind, hk] at h
      exact List.mem_cons_of_mem _ (ih h)

theorem ofind_emplace_self {os : List (Nat × MboMessage)} {k : Nat}
    (m : MboMessage) (h : ofind os k = none) :
    ofind (emplace os k m) k = some m := by
  induction os with
  | nil => simp [emplace, ofind]
  | cons kv rest ih =>
    by_cases hk : kv.1 = k
    · simp [ofind, hk] at h
    · simp [ofind, emplace, hk] at h ⊢
      exact ih h

theorem ofind_emplace_ne (os : List (Nat × MboMessage)) (k k' : Nat)
    (m : MboMessage) (h : k' ≠ k) :
    ofind (emplace os k m) k' = ofind os k' := by
  induction os with
  | nil => simp [emplace, ofind, Ne.symm h]
  | cons kv rest ih =>
    by_cases hk : kv.1 = k
    · simp [emplace, hk]
    · simp [emplace, ofind, hk]
      split <;> simp_all

theorem emplace_of_found {os : List (Nat × MboMessage)} {k : Nat}
    {msg : MboMessage} (m : MboMessage) (h : ofind os k = some msg) :
    emplace os k m = os := by
  induction os with
  | nil => simp [ofind] at h
  | cons kv rest ih =>
    by_cases hk : kv.1 = k
    · simp [emplace, hk]
    · simp [ofind, hk] at h
      simp [emplace, hk, ih h]

theorem okeys_emplace_absent {os : List (Nat × MboMessage)} {k : Nat}
    (m : MboMessage) (h : ofind os k = none) :
    okeys (emplace os k m) = okeys os ++ [k] := by
  induction os with
  | nil => simp [emplace, okeys]
  | cons kv rest ih =>
    by_cases hk : kv.1 = k
    · simp [ofind, hk] at h
    · simp [ofind, hk] at h
      simp [emplace, okeys, hk] at ih ⊢
      exact ih h

theorem mem_emplace {os : List (Nat × MboMessage)} {k : Nat} {m : MboMessage}
    {kv : Nat × MboMessage} (h : kv ∈ emplace os k m) :
    kv ∈ os ∨ kv = (k, m) := by
  induction os with
  | nil => simp [emplace] at h; simp [h]
  | cons e rest ih =>
    by_cases hk : e.1 = k
    · simp [emplace, hk] at h
      rcases h with h | h <;> simp [h]
    · simp [emplace, hk] at h
      rcases h with h | h
      · simp [h]
      · rcases ih h with h' | h' <;> simp [h']

theorem ofind_oset_self {os : List (Nat × MboMessage)} {k : Nat}
    {msg : MboMessage} (m : MboMessage) (h : ofind os k = some msg) :
    ofind (oset os k m) k = some m := by
  induction os with
  | nil => simp [ofind] at h
  | cons kv rest ih =>
    by_cases hk : kv.1 = k
    · simp [oset, ofind, hk]
    · simp [ofind, hk] at h
      simp [oset, ofind, hk]
      exact ih h

theorem ofind_oset_ne (os : List (Nat × MboMessage)) (k k' : Nat)
    (m : MboMessage) (h : k' ≠ k) :
    ofind (oset os k m) k' = ofind os k' := by
  induction os with
  | nil => simp [oset]
  | cons kv rest ih =>
    by_cases hk : kv.1 = k
    · simp [oset, ofind, hk, Ne.symm h]
    · simp [oset, ofind, hk]
      split <;> simp_all

theorem okeys_oset (os : List (Nat × MboMessage)) (k : Nat) (m : MboMessage) :
    okeys (oset os k m) = okeys os := by
  induction os with
  | nil => simp [oset]
  | cons kv rest ih =>
    by_cases hk : kv.1 = k
    · simp [oset, okeys, hk]
    · simp [oset, okeys, hk] at ih ⊢
      exact ih

theorem mem_oset {os : List (Nat × MboMessage)} {k : Nat} {m : MboMessage}
    {kv : Nat × MboMessage} (h : kv ∈ oset os k m) :
    kv ∈ os ∨ kv = (k, m) := by
  induction os with
  | nil => simp [oset] at h
  | cons e rest ih =>
    by_cases hk : e.1 = k
    · simp [oset, hk] at h
      rcases h with h | h <;> simp [h]
    · simp [oset, hk] at h
      rcases h with h | h
      · simp [h]
      · rcases ih h with h' | h' <;> simp [h']

theorem ofind_oerase_self (os : List (Nat × MboMessage)) (k : Nat) :
    ofind (oerase os k) k = none := by
  induction os with
  | nil => simp [oerase, ofind]
  | cons kv rest ih =>
    by_cases hk : kv.1 = k
    · simp [oerase, hk, ih]
    · simp [oerase, ofind, hk, ih]

theorem ofind_oerase_ne (os : List (Nat × MboMessage)) (k k' : Nat)
    (h : k' ≠ k) : ofind (oerase os k) k' = ofind os k' := by
  induction os with
  | nil => simp [oerase]
  | cons kv rest ih =>
    by_cases hk : kv.1 = k
    · simp [oerase, ofind, hk, ih, Ne.symm h]
    · simp [oerase, ofind, hk, ih]

theorem oerase_sublist (os : List (Nat × MboMessage)) (k : Nat) :
    (oerase os k).Sublist os := by
  induction os with
  | nil => simp [oerase]
  | cons kv rest ih =>
    by_cases hk : kv.1 = k
    · simp [oerase, hk]
      exact ih.cons kv
    · simp [oerase, hk]
      exact ih

theorem mem_oerase {os : List (Nat × MboMessage)} {k : Nat}
    {kv : Nat × MboMessage} (h : kv ∈ oerase os k) : kv ∈ os :=
  (oerase_sublist os k).mem h

/-! ### Ladder lemmas -/

theorem lget_lset_self (l : Ladder) (p : Int) (v : Level) :
    lget (lset l p v) p = some v := by
  induction l with
  | nil => simp [lset, lget]
  | cons e rest ih =>
    by_cases h1 : p < e.1
    · simp [lset, lget, h1]
    · by_cases h2 : e.1 = p
      · simp [lset, lget, h1, h2]
      · simp [lset, lget, h1, h2, ih]

theorem lget_lset_ne (l : Ladder) (p q : Int) (v : Level) (h : q ≠ p) :
    lget (lset l p v) q = lget l q := by
  induction l with
  | nil => simp [lset, lget, Ne.symm h]
  | cons e rest ih =>
    by_cases h1 : p < e.1
    · simp [lset, lget, h1, Ne.symm h]
    · by_cases h2 : e.1 = p
      · subst h2
        simp [lset, lget, h1, Ne.symm h]
      · simp [lset, lget, h1, h2, ih]

theorem lget_lerase_self (l : Ladder) (p : Int) :
    lget (lerase l p) p = none := by
  induction l with
  | nil => simp [lerase, lget]
  | cons e rest ih =>
    by_cases h : e.1 = p
    · simp [lerase, h, ih]
    · simp [lerase, lget, h, ih]

theorem lget_lerase_ne (l : Ladder) (p q : Int) (h : q ≠ p) :
    lget (lerase l p) q = lget l q := by
  induction l with
  | nil => simp [lerase]
  | cons e rest ih =>
    by_cases hk : e.1 = p
    · subst hk
      simp [lerase, lget, Ne.symm h, ih]
    · simp [lerase, lget, hk, ih]

theorem lerase_sublist (l : Ladder) (p : Int) : (lerase l p).Sublist l := by
  induction l with
  | nil => simp [lerase]
  | cons e rest ih =>
    by_cases h : e.1 = p
    · simp [lerase, h]
      exact ih.cons e
    · simp [lerase, h]
      exact ih

theorem mem_lerase {l : Ladder} {p : Int} {e : Int × Level}
    (h : e ∈ lerase l p) : e ∈ l :=
  (lerase_sublist l p).mem h

theorem mem_lerase_key {l : Ladder} {p : Int} {e : Int × Level}
    (h : e ∈ lerase l p) : e.1 ≠ p := by
  induction l with
  | nil => simp [lerase] at h
  | cons f rest ih =>
    by_cases hk : f.1 = p
    · simp [lerase, hk] at h
      exact ih h
    · simp [lerase, hk] at h
      rcases h with h | h
      · subst h; exact hk
      · exact ih h

theorem mem_lset {l : Ladder} {p : Int} {v : Level} {e : Int × Level}
    (h : e ∈ lset l p v) : e = (p, v) ∨ e ∈ l := by
  induction l with
  | nil => simp [lset] at h; simp [h]
  | cons f rest ih =>
    by_cases h1 : p < f.1
    · simp [lset, h1] at h
      rcases h with h | h | h <;> simp [h]
    · by_cases h2 : f.1 = p
      · simp [lset, h1, h2] at h
        rcases h with h | h <;> simp [h]
      · simp [lset, h1, h2] at h
        rcases h with h | h
        · simp [h]
        · rcases ih h with h' | h' <;> simp [h']

theorem mem_of_lget_eq_some {l : Ladder} {p : Int} {v : Level}
    (h : lget l p = some v) : (p, v) ∈ l := by
  induction l with
  | nil => simp [lget] at h
  | cons e rest ih =>
    by_cases hk : e.1 = p
    · simp [lget, hk] at h
      obtain ⟨a, c⟩ := e
      cases hk
      cases h
      exact List.mem_cons_self _ _
    · simp [lget, hk] at h
      exact List.mem_cons_of_mem _ (ih h)

theorem lsorted_lerase {l : Ladder} (p : Int) (h : LSorted l) :
    LSorted (lerase l p) :=
  List.Pairwise.sublist (lerase_sublist l p) h

theorem lsorted_lset {l : Ladder} (p : Int) (v : Level) (h : LSorted l) :
    LSorted (lset l p v) := by
  induction l with
  | nil => simp [lset, LSorted]
  | cons e rest ih =>
    rw [LSorted, List.pairwise_cons] at h
    obtain ⟨he, hrest⟩ := h
    by_cases h1 : p < e.1
    · rw [lset]
      simp only [h1, if_pos]
      refine List.Pairwise.cons ?_ (List.Pairwise.cons he hrest)
      intro x hx
      rcases List.mem_cons.mp hx with h' | h'
      · subst h'; exact h1
      · exact lt_trans h1 (he x h')
    · by_cases h2 : e.1 = p
      · rw [lset, if_neg h1, if_pos h2]
        refine List.Pairwise.cons ?_ hrest
        intro x hx
        exact h2 ▸ he x hx
      · rw [lset, if_neg h1, if_neg h2]
        refine List.Pairwise.cons ?_ (ih hrest)
        intro x hx
        rcases mem_lset hx with h' | h'
        · subst h'
          exact lt_of_le_of_ne (not_lt.mp h1) h2
        · exact he x h'

theorem lerase_eq_self {l : Ladder} {p : Int}
    (h : ∀ e ∈ l, e.1 ≠ p) : lerase l p = l := by
  induction l with
  | nil => simp [lerase]
  | cons e rest ih =>
    have he : e.1 ≠ p := h e (List.mem_cons_self _ _)
    simp [lerase, he]
    exact ih fun x hx => h x (List.mem_cons_of_mem _ hx)

theorem lsorted_keys_gt {e : Int × Level} {rest : Ladder}
    (h : LSorted (e :: rest)) : ∀ x ∈ rest, e.1 < x.1 :=
  (List.pairwise_cons.mp h).1

theorem lcount_lset {l : Ladder} (id : Nat) (p : Int) (v : Level)
    (hs : LSorted l) :
    lcount id (lset l p v) = v.count (Ref.reg id) + lcount id (lerase l p) := by
  induction l with
  | nil => simp [lset, lerase, lcount]
  | cons e rest ih =>
    have he := lsorted_keys_gt hs
    have hrest : LSorted rest := (List.pairwise_cons.mp hs).2
    by_cases h1 : p < e.1
    · have hall : ∀ x ∈ e :: rest, x.1 ≠ p := by
        intro x hx
        rcases List.mem_cons.mp hx with h' | h'
        · subst h'; exact fun hh => absurd (hh ▸ h1) (lt_irrefl _)
        · have := lt_trans h1 (he x h')
          exact fun hh => absurd (hh ▸ this) (lt_irrefl _)
      rw [lerase_eq_self hall]
      simp [lset, h1, lcount]
    · by_cases h2 : e.1 = p
      · have hall : ∀ x ∈ rest, x.1 ≠ p := by
          intro x hx
          have := he x hx
          rw [h2] at this
          exact fun hh => absurd (hh ▸ this) (lt_irrefl _)
        rw [lset]
        simp only [h1, h2, if_neg, if_pos, not_false_iff]
        rw [lerase]
        simp only [h2, if_pos]
        rw [lerase_eq_self hall]
        simp [lcount]
      · rw [lset]
        simp only [h1, h2, if_neg, not_false_iff]
        rw [lerase]
        simp only [h2, if_neg, not_false_iff]
        simp only [lcount, List.map_cons, List.sum_cons] at ih ⊢
        rw [ih hrest]
        omega

theorem lcount_split {l : Ladder} (id : Nat) (p : Int) (hs : LSorted l) :
    lcount id l =
      (lgetD l p).count (Ref.reg id) + lcount id (lerase l p) := by
  induction l with
  | nil => simp [lcount, lerase, lgetD, lget]
  | cons e rest ih =>
    have he := lsorted_keys_gt hs
    have hrest : LSorted rest := (List.pairwise_cons.mp hs).2
    by_cases h2 : e.1 = p
    · have hall : ∀ x ∈ rest, x.1 ≠ p := by
        intro x hx
        have := he x hx
        rw [h2] at this
        exact fun hh => absurd (hh ▸ this) (lt_irrefl _)
      rw [lerase]
      simp only [h2, if_pos]
      rw [lerase_eq_self hall]
      simp [lcount, lgetD, lget, h2]
    · rw [lerase]
      simp only [h2, if_neg, not_false_iff]
      simp only [lcount, lgetD, lget, h2, if_neg, not_false_iff,
        List.map_cons, List.sum_cons] at ih ⊢
      rw [ih hrest]
      omega

theorem lcount_eq_zero_iff (id : Nat) (l : Ladder) :
    lcount id l = 0 ↔ ∀ e ∈ l, Ref.reg id ∉ e.2 := by
  rw [lcount, List.sum_eq_zero_iff]
  constructor
  · intro h e he
    have := h (e.2.count (Ref.reg id)) (List.mem_map.mpr ⟨e, he, rfl⟩)
    rwa [List.count_eq_zero] at this
  · intro h x hx
    obtain ⟨e, he, rfl⟩ := List.mem_map.mp hx
    rw [List.count_eq_zero]
    exact h e he

theorem ofind_oset_eq_map (os : List (Nat × MboMessage)) (k : Nat)
    (m : MboMessage) :
    ofind (oset os k m) k = (ofind os k).map (fun _ => m) := by
  induction os with
  | nil => simp [oset, ofind]
  | cons kv rest ih =>
    by_cases hk : kv.1 = k
    · simp [oset, ofind, hk]
    · simp [oset, ofind, hk, ih]

theorem refBackedB_emplace (os : List (Nat × MboMessage)) (k : Nat)
    (m : MboMessage) (r : Ref) (h : refBackedB os r = true) :
    refBackedB (emplace os k m) r = true := by
  cases r with
  | reg id =>
    by_cases hk : id = k
    · subst hk
      rcases hfind : ofind os id with _ | msg
      · simp [refBackedB, ofind_emplace_self m hfind]
      · simp [refBackedB, emplace_of_found m hfind, hfind]
    · simpa [refBackedB, ofind_emplace_ne os k id m hk] using h
  | event mm => simp [refBackedB] at h

theorem refBackedB_oset (os : List (Nat × MboMessage)) (k : Nat)
    (m : MboMessage) (r : Ref) (h : refBackedB os r = true) :
    refBackedB (oset os k m) r = true := by
  cases r with
  | reg id =>
    by_cases hk : id = k
    · subst hk
      rcases hfind : ofind os id with _ | msg
      · simp [refBackedB, hfind] at h
      · simp [refBackedB, ofind_oset_eq_map, hfind]
    · simpa [refBackedB, ofind_oset_ne os k id m hk] using h
  | event mm => simp [refBackedB] at h

theorem refBackedB_oerase (os : List (Nat × MboMessage)) (k : Nat) (r : Ref)
    (h : refBackedB os r = true) (hne : r ≠ Ref.reg k) :
    refBackedB (oerase os k) r = true := by
  cases r with
  | reg id =>
    have hk : id ≠ k := fun hh => hne (hh ▸ rfl)
    simpa [refBackedB, ofind_oerase_ne os k id hk] using h
  | event mm => simp [refBackedB] at h

theorem lcount_eq_zero_of_absent {os : List (Nat × MboMessage)} {l : Ladder}
    {id : Nat} (hB : ∀ e ∈ l, ∀ r ∈ e.2, refBackedB os r = true)
    (habs : ofind os id = none) : lcount id l = 0 := by
  rw [lcount_eq_zero_iff]
  intro e he hr
  have := hB e he _ hr
  simp [refBackedB, habs] at this

/-! ### Aggregation lemmas -/

theorem foldl_aggStep_filter (os : List (Nat × MboMessage)) (id : Nat)
    (mm : MboMessage) (hfind : ofind os id = some mm)
    (hflag : mm.flags.testBit 6 = true) :
    ∀ (v : Level) (sc : Nat × Nat),
      v.foldl (aggStep os) sc =
        (v.filter (fun r => r ≠ Ref.reg id)).foldl (aggStep os) sc := by
  intro v
  induction v with
  | nil => intro sc; simp
  | cons r rest ih =>
    intro sc
    by_cases hr : r = Ref.reg id
    · subst hr
      have hstep : aggStep os sc (Ref.reg id) = sc := by
        simp [aggStep, resolveRef, hfind, hflag]
      simp [List.foldl_cons, hstep, ih]
    · simp [List.foldl_cons, hr, ih]

theorem levelAgg_filter_flagged (os : List (Nat × MboMessage)) (id : Nat)
    (mm : MboMessage) (hfind : ofind os id = some mm)
    (hflag : mm.flags.testBit 6 = true) (v : Level) :
    levelAgg os v = levelAgg os (v.filter (fun r => r ≠ Ref.reg id)) :=
  foldl_aggStep_filter os id mm hfind hflag v (0, 0)

theorem levelAgg_event_flagged (os : List (Nat × MboMessage)) (mm : MboMessage)
    (h : mm.flags.testBit 6 = true) : levelAgg os [Ref.event mm] = (0, 0) := by
  simp [levelAgg, aggStep, resolveRef, h]

/-! ### Snapshot shape lemmas -/

theorem sideRows_length (os : List (Nat × MboMessage)) (entries : Ladder)
    (d : Nat) : (sideRows os entries d).length = d := by
  simp [sideRows]

theorem snapshot_length (b : OrderBook) (d : Nat) :
    (b.snapshot d).length = 2 * d := by
  simp [OrderBook.snapshot, sideRows_length]
  omega

theorem sideRows_getElem_pad (os : List (Nat × MboMessage)) (entries : Ladder)
    (d i : Nat) (h1 : entries.length ≤ i) (h2 : i < d) :
    (sideRows os entries d)[i]? = some padRow := by
  have hlen : ((entries.take d).map (levelRow os)).length = entries.length := by
    simp only [List.length_map, List.length_take]
    exact Nat.min_eq_right (by omega)
  rw [sideRows, List.getElem?_append_right (by rw [hlen]; exact h1)]
  rw [hlen, List.getElem?_replicate]
  have hmin : (entries.take d).length = entries.length := by
    simp only [List.length_take]
    exact Nat.min_eq_right (by omega)
  rw [hmin]
  have hlt : i - entries.length < d - entries.length := by omega
  simp [hlt]

theorem sideRows_prices (os : List (Nat × MboMessage)) (entries : Ladder)
    (d : Nat) :
    ((sideRows os entries d).take (min d entries.length)).map PriceLevel.price =
      (entries.take d).map (·.1) := by
  rw [sideRows]
  have hlen : ((entries.take d).map (levelRow os)).length = min d entries.length := by
    simp
  rw [List.take_left' hlen, List.map_map]
  rfl

theorem mem_sideRows_of_mem (os : List (Nat × MboMessage)) (entries : Ladder)
    (d : Nat) (e : Int × Level) (he : e ∈ entries)
    (hd : entries.length ≤ d) : levelRow os e ∈ sideRows os entries d := by
  rw [sideRows]
  have h' : e ∈ entries.take d := by
    rw [List.take_of_length_le hd]
    exact he
  exact List.mem_append_left _ (List.mem_map_of_mem _ h')

theorem sideRows_single_head (os : List (Nat × MboMessage)) (p : Int)
    (v : Level) (d : Nat) (hd : 1 ≤ d) :
    (sideRows os [(p, v)] d).head? = some (levelRow os (p, v)) := by
  rw [sideRows]
  have : ([((p : Int), v)] : Ladder).take d = [(p, v)] := by
    apply List.take_of_length_le
    simpa using hd
  rw [this]
  rfl

/-! ### Invariant preservation -/

theorem inv_empty : InvBook OrderBook.empty := by decide

theorem lcount_push {L : Ladder} (hs : LSorted L) (p : Int) (id id' : Nat) :
    lcount id' (lset L p (lgetD L p ++ [Ref.reg id])) =
      lcount id' L + (if id' = id then 1 else 0) := by
  rw [lcount_lset id' p _ hs, List.count_append]
  have h2 := lcount_split id' p hs
  by_cases h : id' = id
  · subst h
    have hone : (List.count (Ref.reg id') [Ref.reg id']) = 1 := by simp
    rw [hone, if_pos rfl]
    omega
  · have : (List.count (Ref.reg id') [Ref.reg id]) = 0 := by
      simp [List.count_singleton']
      exact fun hh => h hh.symm
    rw [this, if_neg h]
    omega

theorem lgetD_count_le_lcount {L : Ladder} (hs : LSorted L) (p : Int)
    (id : Nat) : (lgetD L p).count (Ref.reg id) ≤ lcount id L := by
  rw [lcount_split id p hs]
  omega

theorem inv_add {b : OrderBook} {m : MboMessage} (hInv : InvBook b)
    (hflag : m.flags.testBit 6 = false)
    (hfresh : ofind b.orders m.order_id = none) :
    InvBook (b.add m) := by
  obtain ⟨hnd, hsb, hso, hkey, hcnt, hbb, hbo⟩ := hInv
  have hidmem : m.order_id ∉ okeys b.orders := (ofind_none_iff _ _).mp hfresh
  have hkeys' : okeys (emplace b.orders m.order_id m) =
      okeys b.orders ++ [m.order_id] := okeys_emplace_absent m hfresh
  have hnd' : (okeys (emplace b.orders m.order_id m)).Nodup := by
    rw [hkeys']
    simp [List.nodup_append, hnd, hidmem]
  have hmemne : ∀ kv ∈ b.orders, kv.1 ≠ m.order_id := by
    intro kv hkv heq
    exact hidmem (heq ▸ List.mem_map_of_mem _ hkv)
  have habsB : lcount m.order_id b.bids = 0 := lcount_eq_zero_of_absent hbb hfresh
  have habsO : lcount m.order_id b.offers = 0 := lcount_eq_zero_of_absent hbo hfresh
  have hkey' : ∀ kv ∈ emplace b.orders m.order_id m, kv.1 = kv.2.order_id := by
    intro kv hkv
    rcases mem_emplace hkv with hold | hnew
    · exact hkey kv hold
    · subst hnew; rfl
  have hselffind : ofind (emplace b.orders m.order_id m) m.order_id = some m :=
    ofind_emplace_self m hfresh
  -- backedness of a pushed modified ladder, generic in the ladder
  have hbackPush : ∀ (L : Ladder),
      (∀ e ∈ L, ∀ r ∈ e.2, refBackedB b.orders r = true) →
      ∀ e ∈ lset L m.price (lgetD L m.price ++ [Ref.reg m.order_id]),
        ∀ r ∈ e.2, refBackedB (emplace b.orders m.order_id m) r = true := by
    intro L hback e he r hr
    rcases mem_lset he with hnew | hold
    · subst hnew
      simp only at hr
      rcases List.mem_append.mp hr with hv | hsing
      · rcases hv0 : lget L m.price with _ | v
        · rw [lgetD, hv0] at hv; simp at hv
        · rw [lgetD, hv0] at hv
          exact refBackedB_emplace _ _ _ _
            (hback _ (mem_of_lget_eq_some hv0) r hv)
      · have : r = Ref.reg m.order_id := by simpa using hsing
        subst this
        simp [refBackedB, hselffind]
    · exact refBackedB_emplace _ _ _ _ (hback e hold r hr)
  -- count change on the pushed ladder
  by_cases hside : m.side = 'B'
  · have hbookeq : b.add m = ⟨emplace b.orders m.order_id m,
        lset b.bids m.price (lgetD b.bids m.price ++ [Ref.reg m.order_id]),
        b.offers⟩ := by
      simp [OrderBook.add, hflag, hside]
    rw [hbookeq]
    refine ⟨hnd', lsorted_lset _ _ hsb, hso, hkey', ?_, hbackPush b.bids hbb, ?_⟩
    · intro kv hkv
      rcases mem_emplace hkv with hold | hnew
      · obtain ⟨hc1, hc2⟩ := hcnt kv hold
        have hne : kv.1 ≠ m.order_id := hmemne kv hold
        constructor
        · simp only [lcount_push hsb m.price m.order_id kv.1, if_neg hne]
          simpa using hc1
        · by_cases hcs : kv.2.side = 'B'
          · simp only [sideLadder, hcs, if_pos] at hc2 ⊢
            by_cases hp : kv.2.price = m.price
            · rw [hp] at hc2 ⊢
              rw [lgetD, lget_lset_self, Option.getD_some, List.count_append]
              have : (List.count (Ref.reg kv.1) [Ref.reg m.order_id]) = 0 := by
                simp [List.count_singleton']
                exact fun hh => hne hh.symm
              rw [this]
              simpa [lgetD] using hc2
            · rw [lgetD, lget_lset_ne _ _ _ _ hp]
              simpa [lgetD] using hc2
          · simp only [sideLadder, hcs, if_neg, not_false_iff] at hc2 ⊢
            exact hc2
      · subst hnew
        constructor
        · rw [lcount_push hsb m.price m.order_id m.order_id, habsB, habsO]
          simp
        · simp only [sideLadder, hside, if_pos]
          rw [lgetD, lget_lset_self, Option.getD_some, List.count_append]
          have hv0 : (lgetD b.bids m.price).count (Ref.reg m.order_id) = 0 := by
            have := lgetD_count_le_lcount hsb m.price m.order_id
            omega
          rw [hv0]
          simp
    · intro e he r hr
      exact refBackedB_emplace _ _ _ _ (hbo e he r hr)
  · have hbookeq : b.add m = ⟨emplace b.orders m.order_id m, b.bids,
        lset b.offers m.price (lgetD b.offers m.price ++ [Ref.reg m.order_id])⟩ := by
      simp [OrderBook.add, hflag, hside]
    rw [hbookeq]
    refine ⟨hnd', hsb, lsorted_lset _ _ hso, hkey', ?_, ?_, hbackPush b.offers hbo⟩
    · intro kv hkv
      rcases mem_emplace hkv with hold | hnew
      · obtain ⟨hc1, hc2⟩ := hcnt kv hold
        have hne : kv.1 ≠ m.order_id := hmemne kv hold
        constructor
        · simp only [lcount_push hso m.price m.order_id kv.1, if_neg hne]
          simpa using hc1
        · by_cases hcs : kv.2.side = 'B'
          · simp only [sideLadder, hcs, if_pos] at hc2 ⊢
            exact hc2
          · simp only [sideLadder, hcs, if_neg, not_false_iff] at hc2 ⊢
            by_cases hp : kv.2.price = m.price
            · rw [hp] at hc2 ⊢
              rw [lgetD, lget_lset_self, Option.getD_some, List.count_append]
              have : (List.count (Ref.reg kv.1) [Ref.reg m.order_id]) = 0 := by
                simp [List.count_singleton']
                exact fun hh => hne hh.symm
              rw [this]
              simpa [lgetD] using hc2
            · rw [lgetD, lget_lset_ne _ _ _ _ hp]
              simpa [lgetD] using hc2
      · subst hnew
        constructor
        · rw [lcount_push hso m.price m.order_id m.order_id, habsB, habsO]
          simp
        · simp only [sideLadder, hside, if_neg, not_false_iff]
          rw [lgetD, lget_lset_self, Option.getD_some, List.count_append]
          have hv0 : (lgetD b.offers m.price).count (Ref.reg m.order_id) = 0 := by
            have := lgetD_count_le_lcount hso m.price m.order_id
            omega
          rw [hv0]
          simp
    · intro e he r hr
      exact refBackedB_emplace _ _ _ _ (hbb e he r hr)

theorem count_reg_singleton_ne {id id' : Nat} (h : id' ≠ id) :
    List.count (Ref.reg id') [Ref.reg id] = 0 := by
  rw [List.count_eq_zero]
  simp [h]

theorem mem_oset_cases {os : List (Nat × MboMessage)} {k : Nat}
    {m : MboMessage} {kv : Nat × MboMessage} (hnd : (okeys os).Nodup)
    (h : kv ∈ oset os k m) : (kv.1 ≠ k ∧ kv ∈ os) ∨ kv = (k, m) := by
  induction os with
  | nil => simp [oset] at h
  | cons e rest ih =>
    rw [okeys, List.map_cons, List.nodup_cons] at hnd
    obtain ⟨hhead, hrest⟩ := hnd
    by_cases hk : e.1 = k
    · rw [oset, if_pos hk] at h
      rcases List.mem_cons.mp h with h' | h'
      · right; exact h'
      · left
        refine ⟨?_, List.mem_cons_of_mem _ h'⟩
        intro heq
        exact hhead (hk ▸ heq ▸ List.mem_map_of_mem _ h')
    · rw [oset, if_neg hk] at h
      rcases List.mem_cons.mp h with h' | h'
      · left
        exact ⟨h' ▸ hk, h' ▸ List.mem_cons_self _ _⟩
      · rcases ih hrest h' with ⟨ha, hb⟩ | hc
        · exact Or.inl ⟨ha, List.mem_cons_of_mem _ hb⟩
        · exact Or.inr hc

theorem mem_oerase_key {os : List (Nat × MboMessage)} {k : Nat}
    {kv : Nat × MboMessage} (h : kv ∈ oerase os k) : kv.1 ≠ k := by
  induction os with
  | nil => simp [oerase] at h
  | cons e rest ih =>
    by_cases hk : e.1 = k
    · rw [oerase, if_pos hk] at h
      exact ih h
    · rw [oerase, if_neg hk] at h
      rcases List.mem_cons.mp h with h' | h'
      · exact h' ▸ hk
      · exact ih h'

theorem mem_lset_sorted {l : Ladder} {p : Int} {v : Level} {e : Int × Level}
    (hs : LSorted l) (h : e ∈ lset l p v) :
    e = (p, v) ∨ (e ∈ l ∧ e.1 ≠ p) := by
  induction l with
  | nil => simp [lset] at h; simp [h]
  | cons f rest ih =>
    have hgt := lsorted_keys_gt hs
    have hrest : LSorted rest := (List.pairwise_cons.mp hs).2
    by_cases h1 : p < f.1
    · rw [lset, if_pos h1] at h
      rcases List.mem_cons.mp h with h' | h'
      · exact Or.inl h'
      · refine Or.inr ⟨h', ?_⟩
        rcases List.mem_cons.mp h' with h'' | h''
        · subst h''; omega
        · have := hgt e h''; omega
    · by_cases h2 : f.1 = p
      · rw [lset, if_neg h1, if_pos h2] at h
        rcases List.mem_cons.mp h with h' | h'
        · exact Or.inl h'
        · refine Or.inr ⟨List.mem_cons_of_mem _ h', ?_⟩
          have := hgt e h'; omega
      · rw [lset, if_neg h1, if_neg h2] at h
        rcases List.mem_cons.mp h with h' | h'
        · subst h'
          refine Or.inr ⟨List.mem_cons_self _ _, ?_⟩
          omega
        · rcases ih hrest h' with h'' | ⟨ha, hb⟩
          · exact Or.inl h''
          · exact Or.inr ⟨List.mem_cons_of_mem _ ha, hb⟩

theorem mem_lerase_of {l : Ladder} {p : Int} {e : Int × Level}
    (he : e ∈ l) (hp : e.1 ≠ p) : e ∈ lerase l p := by
  induction l with
  | nil => simp at he
  | cons f rest ih =>
    by_cases hk : f.1 = p
    · rw [lerase, if_pos hk]
      rcases List.mem_cons.mp he with h' | h'
      · subst h'; exact absurd hk hp
      · exact ih h'
    · rw [lerase, if_neg hk]
      rcases List.mem_cons.mp he with h' | h'
      · exact h' ▸ List.mem_cons_self _ _
      · exact List.mem_cons_of_mem _ (ih h')

theorem mem_of_mem_filter_ne {v : Level} {id : Nat} {r : Ref}
    (h : r ∈ v.filter (fun x => x ≠ Ref.reg id)) :
    r ∈ v ∧ r ≠ Ref.reg id := by
  have := List.mem_filter.mp h
  exact ⟨this.1, by simpa using this.2⟩

theorem count_filter_ne_self (v : Level) (id : Nat) :
    (v.filter (fun x => x ≠ Ref.reg id)).count (Ref.reg id) = 0 := by
  rw [List.count_eq_zero]
  intro h
  exact (mem_of_mem_filter_ne h).2 rfl

theorem count_filter_ne_other (v : Level) {id id' : Nat} (h : id' ≠ id) :
    (v.filter (fun x => x ≠ Ref.reg id)).count (Ref.reg id') =
      v.count (Ref.reg id') := by
  apply List.count_filter
  simp [h]

theorem filter_ne_all_eq {v : Level} {id : Nat}
    (h : v.filter (fun x => x ≠ Ref.reg id) = []) :
    ∀ r ∈ v, r = Ref.reg id := by
  intro r hr
  by_contra hne
  have hmem : r ∈ v.filter (fun x => x ≠ Ref.reg id) :=
    List.mem_filter.mpr ⟨hr, by simpa using hne⟩
  rw [h] at hmem
  simp at hmem

theorem nodup_okeys_oerase {os : List (Nat × MboMessage)} (k : Nat)
    (hnd : (okeys os).Nodup) : (okeys (oerase os k)).Nodup :=
  List.Nodup.sublist ((oerase_sublist os k).map _) hnd

theorem inv_cancel {b : OrderBook} {m : MboMessage} (hInv : InvBook b)
    (hside : ∀ msg, ofind b.orders m.order_id = some msg →
      ((m.side = 'B') ↔ (msg.side = 'B'))) :
    InvBook (b.cancel m) := by
  obtain ⟨hnd, hsb, hso, hkey, hcnt, hbb, hbo⟩ := hInv
  rcases hfind : ofind b.orders m.order_id with _ | msg0
  · have hb : b.cancel m = b := by simp [OrderBook.cancel, hfind]
    rw [hb]
    exact ⟨hnd, hsb, hso, hkey, hcnt, hbb, hbo⟩
  have hmem0 : (m.order_id, msg0) ∈ b.orders := mem_of_ofind_eq_some hfind
  have hkey0 : m.order_id = msg0.order_id := hkey _ hmem0
  obtain ⟨hc1, hc2⟩ := hcnt _ hmem0
  simp only at hc1 hc2
  have hiff := hside msg0 hfind
  by_cases hbid : m.side = 'B'
  · have hbs : msg0.side = 'B' := hiff.mp hbid
    rw [sideLadder, if_pos hbs] at hc2
    have hcle := lgetD_count_le_lcount hsb msg0.price m.order_id
    have hsplit0 := lcount_split m.order_id msg0.price hsb
    have hLb : lcount m.order_id b.bids = 1 := by omega
    have hLo : lcount m.order_id b.offers = 0 := by omega
    have hlerase0 : lcount m.order_id (lerase b.bids msg0.price) = 0 := by
      omega
    by_cases hz : (if msg0.size > m.size then msg0.size - m.size else 0) = 0
    · by_cases hv1 :
        (lgetD b.bids msg0.price).filter (fun r => r ≠ Ref.reg m.order_id) = []
      · have hv1' : (lgetD b.bids msg0.price).filter
            (fun r => !decide (r = Ref.reg m.order_id)) = [] := by
          simpa only [ne_eq, decide_not] using hv1
        have hbook : b.cancel m =
            ⟨oerase (oset b.orders m.order_id {msg0 with size := 0}) m.order_id,
              lerase b.bids msg0.price, b.offers⟩ := by
          simp [OrderBook.cancel, hfind, hbid, hz, hv1']
        rw [hbook]
        have hosnd :
            (okeys (oset b.orders m.order_id {msg0 with size := 0})).Nodup := by
          rw [okeys_oset]; exact hnd
        refine ⟨nodup_okeys_oerase _ hosnd, lsorted_lerase _ hsb, hso, ?_, ?_, ?_, ?_⟩
        · intro kv hkv
          have hne := mem_oerase_key hkv
          rcases mem_oset_cases hnd (mem_oerase hkv) with ⟨_, hold⟩ | heq
          · exact hkey kv hold
          · exact absurd (congrArg Prod.fst heq) hne
        · intro kv hkv
          have hne := mem_oerase_key hkv
          rcases mem_oset_cases hnd (mem_oerase hkv) with ⟨_, hold⟩ | heq
          swap
          · exact absurd (congrArg Prod.fst heq) hne
          obtain ⟨hk1, hk2⟩ := hcnt kv hold
          have hv0count : (lgetD b.bids msg0.price).count (Ref.reg kv.1) = 0 := by
            rw [List.count_eq_zero]
            intro hmem
            exact hne (Ref.reg.inj (filter_ne_all_eq hv1 _ hmem))
          have hsplitk := lcount_split kv.1 msg0.price hsb
          rw [hv0count] at hsplitk
          constructor
          · simp only
            omega
          · by_cases hcs : kv.2.side = 'B'
            · simp only [sideLadder, hcs, if_pos] at hk2 ⊢
              by_cases hp : kv.2.price = msg0.price
              · rw [hp, hv0count] at hk2
                exact absurd hk2 (by decide)
              · rw [lgetD, lget_lerase_ne _ _ _ hp]
                simpa [lgetD] using hk2
            · simp only [sideLadder, hcs, if_neg, not_false_iff] at hk2 ⊢
              exact hk2
        · intro e he r hr
          have hel := mem_lerase he
          have hback0 := hbb e hel r hr
          have hrne : r ≠ Ref.reg m.order_id := by
            intro heq
            subst heq
            have h0 := hlerase0
            rw [lcount_eq_zero_iff] at h0
            exact h0 e he hr
          exact refBackedB_oerase _ _ _ (refBackedB_oset _ _ _ _ hback0) hrne
        · intro e he r hr
          have hback0 := hbo e he r hr
          have hrne : r ≠ Ref.reg m.order_id := by
            intro heq
            subst heq
            have h0 := hLo
            rw [lcount_eq_zero_iff] at h0
            exact h0 e he hr
          exact refBackedB_oerase _ _ _ (refBackedB_oset _ _ _ _ hback0) hrne
      · have hv1' : ¬ (lgetD b.bids msg0.price).filter
            (fun r => !decide (r = Ref.reg m.order_id)) = [] := by
          simpa only [ne_eq, decide_not] using hv1
        have hbook : b.cancel m =
            ⟨oerase (oset b.orders m.order_id {msg0 with size := 0}) m.order_id,
              lset b.bids msg0.price
                ((lgetD b.bids msg0.price).filter (fun r => r ≠ Ref.reg m.order_id)),
              b.offers⟩ := by
          simp [OrderBook.cancel, hfind, hbid, hz, hv1']
        rw [hbook]
        have hosnd :
            (okeys (oset b.orders m.order_id {msg0 with size := 0})).Nodup := by
          rw [okeys_oset]; exact hnd
        refine ⟨nodup_okeys_oerase _ hosnd, lsorted_lset _ _ hsb, hso, ?_, ?_, ?_, ?_⟩
        · intro kv hkv
          have hne := mem_oerase_key hkv
          rcases mem_oset_cases hnd (mem_oerase hkv) with ⟨_, hold⟩ | heq
          · exact hkey kv hold
          · exact absurd (congrArg Prod.fst heq) hne
        · intro kv hkv
          have hne := mem_oerase_key hkv
          rcases mem_oset_cases hnd (mem_oerase hkv) with ⟨_, hold⟩ | heq
          swap
          · exact absurd (congrArg Prod.fst heq) hne
          obtain ⟨hk1, hk2⟩ := hcnt kv hold
          have hfo := count_filter_ne_other (lgetD b.bids msg0.price) hne
          have hsplitk := lcount_split kv.1 msg0.price hsb
          have hlsetk := lcount_lset kv.1 msg0.price
            ((lgetD b.bids msg0.price).filter (fun r => r ≠ Ref.reg m.order_id)) hsb
          rw [hfo] at hlsetk
          constructor
          · simp only
            omega
          · by_cases hcs : kv.2.side = 'B'
            · simp only [sideLadder, hcs, if_pos] at hk2 ⊢
              by_cases hp : kv.2.price = msg0.price
              · rw [hp] at hk2 ⊢
                rw [lgetD, lget_lset_self, Option.getD_some, hfo]
                exact hk2
              · rw [lgetD, lget_lset_ne _ _ _ _ hp]
                simpa [lgetD] using hk2
            · simp only [sideLadder, hcs, if_neg, not_false_iff] at hk2 ⊢
              exact hk2
        · intro e he r hr
          rcases mem_lset_sorted hsb he with heq | ⟨hel, hep⟩
          · subst heq
            simp only at hr
            obtain ⟨hrv0, hrne⟩ := mem_of_mem_filter_ne hr
            rcases hv0 : lget b.bids msg0.price with _ | v
            · rw [lgetD, hv0] at hrv0; simp at hrv0
            · rw [lgetD, hv0] at hrv0
              have hback0 := hbb _ (mem_of_lget_eq_some hv0) r hrv0
              exact refBackedB_oerase _ _ _ (refBackedB_oset _ _ _ _ hback0) hrne
          · have hback0 := hbb e hel r hr
            have hrne : r ≠ Ref.reg m.order_id := by
              intro heq
              subst heq
              have h0 := hlerase0
              rw [lcount_eq_zero_iff] at h0
              exact h0 e (mem_lerase_of hel hep) hr
            exact refBackedB_oerase _ _ _ (refBackedB_oset _ _ _ _ hback0) hrne
        · intro e he r hr
          have hback0 := hbo e he r hr
          have hrne : r ≠ Ref.reg m.order_id := by
            intro heq
            subst heq
            have h0 := hLo
            rw [lcount_eq_zero_iff] at h0
            exact h0 e he hr
          exact refBackedB_oerase _ _ _ (refBackedB_oset _ _ _ _ hback0) hrne
    · have hbook : b.cancel m =
          ⟨oset b.orders m.order_id
              {msg0 with size := if msg0.size > m.size then msg0.size - m.size else 0},
            lset b.bids msg0.price
              ((lgetD b.bids msg0.price).filter (fun r => r ≠ Ref.reg m.order_id) ++
                [Ref.reg m.order_id]),
            b.offers⟩ := by
        simp [OrderBook.cancel, hfind, hbid, hz]
      rw [hbook]
      have hosnd : (okeys (oset b.orders m.order_id
          {msg0 with size := if msg0.size > m.size then msg0.size - m.size else 0})).Nodup := by
        rw [okeys_oset]; exact hnd
      refine ⟨hosnd, lsorted_lset _ _ hsb, hso, ?_, ?_, ?_, ?_⟩
      · intro kv hkv
        rcases mem_oset_cases hnd hkv with ⟨_, hold⟩ | heq
        · exact hkey kv hold
        · rw [heq]
          exact hkey0
      · intro kv hkv
        rcases mem_oset_cases hnd hkv with ⟨hne, hold⟩ | heq
        · obtain ⟨hk1, hk2⟩ := hcnt kv hold
          have hfo := count_filter_ne_other (lgetD b.bids msg0.price) hne
          have hsing := count_reg_singleton_ne hne
          have hsplitk := lcount_split kv.1 msg0.price hsb
          have hlsetk := lcount_lset kv.1 msg0.price
            ((lgetD b.bids msg0.price).filter (fun r => r ≠ Ref.reg m.order_id) ++
              [Ref.reg m.order_id]) hsb
          rw [List.count_append, hfo, hsing] at hlsetk
          constructor
          · simp only
            omega
          · by_cases hcs : kv.2.side = 'B'
            · simp only [sideLadder, hcs, if_pos] at hk2 ⊢
              by_cases hp : kv.2.price = msg0.price
              · rw [hp] at hk2 ⊢
                rw [lgetD, lget_lset_self, Option.getD_some, List.count_append,
                  hfo, hsing]
                simpa using hk2
              · rw [lgetD, lget_lset_ne _ _ _ _ hp]
                simpa [lgetD] using hk2
            · simp only [sideLadder, hcs, if_neg, not_false_iff] at hk2 ⊢
              exact hk2
        · rw [heq]
          have hfs := count_filter_ne_self (lgetD b.bids msg0.price) m.order_id
          have hsing : List.count (Ref.reg m.order_id) [Ref.reg m.order_id] = 1 := by
            simp
          have hlsetk := lcount_lset m.order_id msg0.price
            ((lgetD b.bids msg0.price).filter (fun r => r ≠ Ref.reg m.order_id) ++
              [Ref.reg m.order_id]) hsb
          rw [List.count_append, hfs, hsing] at hlsetk
          constructor
          · simp only
            omega
          · simp only [sideLadder, hbs, if_pos]
            rw [lgetD, lget_lset_self, Option.getD_some, List.count_append,
              hfs, hsing]
      · intro e he r hr
        rcases mem_lset_sorted hsb he with heq | ⟨hel, _⟩
        · subst heq
          simp only at hr
          rcases List.mem_append.mp hr with hv | hsing
          · obtain ⟨hrv0, _⟩ := mem_of_mem_filter_ne hv
            rcases hv0 : lget b.bids msg0.price with _ | v
            · rw [lgetD, hv0] at hrv0; simp at hrv0
            · rw [lgetD, hv0] at hrv0
              exact refBackedB_oset _ _ _ _ (hbb _ (mem_of_lget_eq_some hv0) r hrv0)
          · have : r = Ref.reg m.order_id := by simpa using hsing
            subst this
            simp [refBackedB, ofind_oset_eq_map, hfind]
        · exact refBackedB_oset _ _ _ _ (hbb e hel r hr)
      · intro e he r hr
        exact refBackedB_oset _ _ _ _ (hbo e he r hr)
  · have hbs : ¬ msg0.side = 'B' := fun h => hbid (hiff.mpr h)
    rw [sideLadder, if_neg hbs] at hc2
    have hcle := lgetD_count_le_lcount hso msg0.price m.order_id
    have hsplit0 := lcount_split m.order_id msg0.price hso
    have hLo : lcount m.order_id b.offers = 1 := by omega
    have hLb : lcount m.order_id b.bids = 0 := by omega
    have hlerase0 : lcount m.order_id (lerase b.offers msg0.price) = 0 := by
      omega
    by_cases hz : (if msg0.size > m.size then msg0.size - m.size else 0) = 0
    · by_cases hv1 :
        (lgetD b.offers msg0.price).filter (fun r => r ≠ Ref.reg m.order_id) = []
      · have hv1' : (lgetD b.offers msg0.price).filter
            (fun r => !decide (r = Ref.reg m.order_id)) = [] := by
          simpa only [ne_eq, decide_not] using hv1
        have hbook : b.cancel m =
            ⟨oerase (oset b.orders m.order_id {msg0 with size := 0}) m.order_id,
              b.bids, lerase b.offers msg0.price⟩ := by
          simp [OrderBook.cancel, hfind, hbid, hz, hv1']
        rw [hbook]
        have hosnd :
            (okeys (oset b.orders m.order_id {msg0 with size := 0})).Nodup := by
          rw [okeys_oset]; exact hnd
        refine ⟨nodup_okeys_oerase _ hosnd, hsb, lsorted_lerase _ hso, ?_, ?_, ?_, ?_⟩
        · intro kv hkv
          have hne := mem_oerase_key hkv
          rcases mem_oset_cases hnd (mem_oerase hkv) with ⟨_, hold⟩ | heq
          · exact hkey kv hold
          · exact absurd (congrArg Prod.fst heq) hne
        · intro kv hkv
          have hne := mem_oerase_key hkv
          rcases mem_oset_cases hnd (mem_oerase hkv) with ⟨_, hold⟩ | heq
          swap
          · exact absurd (congrArg Prod.fst heq) hne
          obtain ⟨hk1, hk2⟩ := hcnt kv hold
          have hv0count : (lgetD b.offers msg0.price).count (Ref.reg kv.1) = 0 := by
            rw [List.count_eq_zero]
            intro hmem
            exact hne (Ref.reg.inj (filter_ne_all_eq hv1 _ hmem))
          have hsplitk := lcount_split kv.1 msg0.price hso
          rw [hv0count] at hsplitk
          constructor
          · simp only
            omega
          · by_cases hcs : kv.2.side = 'B'
            · simp only [sideLadder, hcs, if_pos] at hk2 ⊢
              exact hk2
            · simp only [sideLadder, hcs, if_neg, not_false_iff] at hk2 ⊢
              by_cases hp : kv.2.price = msg0.price
              · rw [hp, hv0count] at hk2
                exact absurd hk2 (by decide)
              · rw [lgetD, lget_lerase_ne _ _ _ hp]
                simpa [lgetD] using hk2
        · intro e he r hr
          have hback0 := hbb e he r hr
          have hrne : r ≠ Ref.reg m.order_id := by
            intro heq
            subst heq
            have h0 := hLb
            rw [lcount_eq_zero_iff] at h0
            exact h0 e he hr
          exact refBackedB_oerase _ _ _ (refBackedB_oset _ _ _ _ hback0) hrne
        · intro e he r hr
          have hel := mem_lerase he
          have hback0 := hbo e hel r hr
          have hrne : r ≠ Ref.reg m.order_id := by
            intro heq
            subst heq
            have h0 := hlerase0
            rw [lcount_eq_zero_iff] at h0
            exact h0 e he hr
          exact refBackedB_oerase _ _ _ (refBackedB_oset _ _ _ _ hback0) hrne
      · have hv1' : ¬ (lgetD b.offers msg0.price).filter
            (fun r => !decide (r = Ref.reg m.order_id)) = [] := by
          simpa only [ne_eq, decide_not] using hv1
        have hbook : b.cancel m =
            ⟨oerase (oset b.orders m.order_id {msg0 with size := 0}) m.order_id,
              b.bids,
              lset b.offers msg0.price
                ((lgetD b.offers msg0.price).filter (fun r => r ≠ Ref.reg m.order_id))⟩ := by
          simp [OrderBook.cancel, hfind, hbid, hz, hv1']
        rw [hbook]
        have hosnd :
            (okeys (oset b.orders m.order_id {msg0 with size := 0})).Nodup := by
          rw [okeys_oset]; exact hnd
        refine ⟨nodup_okeys_oerase _ hosnd, hsb, lsorted_lset _ _ hso, ?_, ?_, ?_, ?_⟩
        · intro kv hkv
          have hne := mem_oerase_key hkv
          rcases mem_oset_cases hnd (mem_oerase hkv) with ⟨_, hold⟩ | heq
          · exact hkey kv hold
          · exact absurd (congrArg Prod.fst heq) hne
        · intro kv hkv
          have hne := mem_oerase_key hkv
          rcases mem_oset_cases hnd (mem_oerase hkv) with ⟨_, hold⟩ | heq
          swap
          · exact absurd (congrArg Prod.fst heq) hne
          obtain ⟨hk1, hk2⟩ := hcnt kv hold
          have hfo := count_filter_ne_other (lgetD b.offers msg0.price) hne
          have hsplitk := lcount_split kv.1 msg0.price hso
          have hlsetk := lcount_lset kv.1 msg0.price
            ((lgetD b.offers msg0.price).filter (fun r => r ≠ Ref.reg m.order_id)) hso
          rw [hfo] at hlsetk
          constructor
          · simp only
            omega
          · by_cases hcs : kv.2.side = 'B'
            · simp only [sideLadder, hcs, if_pos] at hk2 ⊢
              exact hk2
            · simp only [sideLadder, hcs, if_neg, not_false_iff] at hk2 ⊢
              by_cases hp : kv.2.price = msg0.price
              · rw [hp] at hk2 ⊢
                rw [lgetD, lget_lset_self, Option.getD_some, hfo]
                exact hk2
              · rw [lgetD, lget_lset_ne _ _ _ _ hp]
                simpa [lgetD] using hk2
        · intro e he r hr
          have hback0 := hbb e he r hr
          have hrne : r ≠ Ref.reg m.order_id := by
            intro heq
            subst heq
            have h0 := hLb
            rw [lcount_eq_zero_iff] at h0
            exact h0 e he hr
          exact refBackedB_oerase _ _ _ (refBackedB_oset _ _ _ _ hback0) hrne
        · intro e he r hr
          rcases mem_lset_sorted hso he with heq | ⟨hel, hep⟩
          · subst heq
            simp only at hr
            obtain ⟨hrv0, hrne⟩ := mem_of_mem_filter_ne hr
            rcases hv0 : lget b.offers msg0.price with _ | v
            · rw [lgetD, hv0] at hrv0; simp at hrv0
            · rw [lgetD, hv0] at hrv0
              have hback0 := hbo _ (mem_of_lget_eq_some hv0) r hrv0
              exact refBackedB_oerase _ _ _ (refBackedB_oset _ _ _ _ hback0) hrne
          · have hback0 := hbo e hel r hr
            have hrne : r ≠ Ref.reg m.order_id := by
              intro heq
              subst heq
              have h0 := hlerase0
              rw [lcount_eq_zero_iff] at h0
              exact h0 e (mem_lerase_of hel hep) hr
            exact refBackedB_oerase _ _ _ (refBackedB_oset _ _ _ _ hback0) hrne
    · have hbook : b.cancel m =
          ⟨oset b.orders m.order_id
              {msg0 with size := if msg0.size > m.size then msg0.size - m.size else 0},
            b.bids,
            lset b.offers msg0.price
              ((lgetD b.offers msg0.price).filter (fun r => r ≠ Ref.reg m.order_id) ++
                [Ref.reg m.order_id])⟩ := by
        simp [OrderBook.cancel, hfind, hbid, hz]
      rw [hbook]
      have hosnd : (okeys (oset b.orders m.order_id
          {msg0 with size := if msg0.size > m.size then msg0.size - m.size else 0})).Nodup := by
        rw [okeys_oset]; exact hnd
      refine ⟨hosnd, hsb, lsorted_lset _ _ hso, ?_, ?_, ?_, ?_⟩
      · intro kv hkv
        rcases mem_oset_cases hnd hkv with ⟨_, hold⟩ | heq
        · exact hkey kv hold
        · rw [heq]
          exact hkey0
      · intro kv hkv
        rcases mem_oset_cases hnd hkv with ⟨hne, hold⟩ | heq
        · obtain ⟨hk1, hk2⟩ := hcnt kv hold
          have hfo := count_filter_ne_other (lgetD b.offers msg0.price) hne
          have hsing := count_reg_singleton_ne hne
          have hsplitk := lcount_split kv.1 msg0.price hso
          have hlsetk := lcount_lset kv.1 msg0.price
            ((lgetD b.offers msg0.price).filter (fun r => r ≠ Ref.reg m.order_id) ++
              [Ref.reg m.order_id]) hso
          rw [List.count_append, hfo, hsing] at hlsetk
          constructor
          · simp only
            omega
          · by_cases hcs : kv.2.side = 'B'
            · simp only [sideLadder, hcs, if_pos] at hk2 ⊢
              exact hk2
            · simp only [sideLadder, hcs, if_neg, not_false_iff] at hk2 ⊢
              by_cases hp : kv.2.price = msg0.price
              · rw [hp] at hk2 ⊢
                rw [lgetD, lget_lset_self, Option.getD_some, List.count_append,
                  hfo, hsing]
                simpa using hk2
              · rw [lgetD, lget_lset_ne _ _ _ _ hp]
                simpa [lgetD] using hk2
        · rw [heq]
          have hfs := count_filter_ne_self (lgetD b.offers msg0.price) m.order_id
          have hsing : List.count (Ref.reg m.order_id) [Ref.reg m.order_id] = 1 := by
            simp
          have hlsetk := lcount_lset m.order_id msg0.price
            ((lgetD b.offers msg0.price).filter (fun r => r ≠ Ref.reg m.order_id) ++
              [Ref.reg m.order_id]) hso
          rw [List.count_append, hfs, hsing] at hlsetk
          constructor
          · simp only
            omega
          · simp only [sideLadder, hbs, if_neg, not_false_iff]
            rw [lgetD, lget_lset_self, Option.getD_some, List.count_append,
              hfs, hsing]
      · intro e he r hr
        exact refBackedB_oset _ _ _ _ (hbb e he r hr)
      · intro e he r hr
        rcases mem_lset_sorted hso he with heq | ⟨hel, _⟩
        · subst heq
          simp only at hr
          rcases List.mem_append.mp hr with hv | hsing
          · obtain ⟨hrv0, _⟩ := mem_of_mem_filter_ne hv
            rcases hv0 : lget b.offers msg0.price with _ | v
            · rw [lgetD, hv0] at hrv0; simp at hrv0
            · rw [lgetD, hv0] at hrv0
              exact refBackedB_oset _ _ _ _ (hbo _ (mem_of_lget_eq_some hv0) r hrv0)
          · have : r = Ref.reg m.order_id := by simpa using hsing
            subst this
            simp [refBackedB, ofind_oset_eq_map, hfind]
        · exact refBackedB_oset _ _ _ _ (hbo e hel r hr)

theorem inv_modify {b : OrderBook} {m : MboMessage} (hInv : InvBook b)
    (hunknown : ofind b.orders m.order_id = none → m.flags.testBit 6 = false)
    (hside : ∀ msg, ofind b.orders m.order_id = some msg →
      ((m.side = 'B') ↔ (msg.side = 'B'))) :
    InvBook (b.modify m) := by
  rcases hfind : ofind b.orders m.order_id with _ | msg0
  · have hb : b.modify m = b.add m := by simp [OrderBook.modify, hfind]
    rw [hb]
    exact inv_add hInv (hunknown hfind) hfind
  obtain ⟨hnd, hsb, hso, hkey, hcnt, hbb, hbo⟩ := hInv
  have hmem0 : (m.order_id, msg0) ∈ b.orders := mem_of_ofind_eq_some hfind
  have hkey0 : m.order_id = msg0.order_id := hkey _ hmem0
  obtain ⟨hc1, hc2⟩ := hcnt _ hmem0
  simp only at hc1 hc2
  have hiff := hside msg0 hfind
  by_cases hsd : msg0.side = 'B'
  · have hbidm : m.side = 'B' := hiff.mpr hsd
    rw [sideLadder, if_pos hsd] at hc2
    have hcle := lgetD_count_le_lcount hsb msg0.price m.order_id
    have hsplit0 := lcount_split m.order_id msg0.price hsb
    have hLb : lcount m.order_id b.bids = 1 := by omega
    have hLo : lcount m.order_id b.offers = 0 := by omega
    have hlerase0 : lcount m.order_id (lerase b.bids msg0.price) = 0 := by
      omega
    by_cases hbp : msg0.price ≠ m.price
    · -- price changed
      by_cases hv1 :
          (lgetD b.bids msg0.price).filter (fun r => r ≠ Ref.reg m.order_id) = []
      · have hv1' : (lgetD b.bids msg0.price).filter
            (fun r => !decide (r = Ref.reg m.order_id)) = [] := by
          simpa only [ne_eq, decide_not] using hv1
        have hbook : b.modify m = ⟨oset b.orders m.order_id m,
            lset (lerase b.bids msg0.price) m.price
              (lgetD (lerase b.bids msg0.price) m.price ++ [Ref.reg m.order_id]),
            b.offers⟩ := by
          simp [OrderBook.modify, hfind, hsd, hbp, hv1']
        rw [hbook]
        have hs1 : LSorted (lerase b.bids msg0.price) := lsorted_lerase _ hsb
        have hosnd : (okeys (oset b.orders m.order_id m)).Nodup := by
          rw [okeys_oset]; exact hnd
        refine ⟨hosnd, lsorted_lset _ _ hs1, hso, ?_, ?_, ?_, ?_⟩
        · intro kv hkv
          rcases mem_oset_cases hnd hkv with ⟨_, hold⟩ | heq
          · exact hkey kv hold
          · rw [heq]
        · intro kv hkv
          rcases mem_oset_cases hnd hkv with ⟨hne, hold⟩ | heq
          · obtain ⟨hk1, hk2⟩ := hcnt kv hold
            have hv0count : (lgetD b.bids msg0.price).count (Ref.reg kv.1) = 0 := by
              rw [List.count_eq_zero]
              intro hmem
              exact hne (Ref.reg.inj (filter_ne_all_eq hv1 _ hmem))
            have hsplitk := lcount_split kv.1 msg0.price hsb
            rw [hv0count] at hsplitk
            have hpushk := lcount_push hs1 m.price m.order_id kv.1
            rw [if_neg hne] at hpushk
            constructor
            · simp only
              omega
            · by_cases hcs : kv.2.side = 'B'
              · simp only [sideLadder, hcs, if_pos] at hk2 ⊢
                by_cases hqm : kv.2.price = m.price
                · rw [hqm] at hk2 ⊢
                  rw [lgetD, lget_lset_self, Option.getD_some, List.count_append,
                    count_reg_singleton_ne hne]
                  rw [lgetD, lget_lerase_ne _ _ _ (by omega : m.price ≠ msg0.price)]
                  simpa [lgetD] using hk2
                · by_cases hq0 : kv.2.price = msg0.price
                  · rw [hq0, hv0count] at hk2
                    exact absurd hk2 (by decide)
                  · rw [lgetD, lget_lset_ne _ _ _ _ hqm, lget_lerase_ne _ _ _ hq0]
                    simpa [lgetD] using hk2
              · simp only [sideLadder, hcs, if_neg, not_false_iff] at hk2 ⊢
                exact hk2
          · rw [heq]
            have hpush := lcount_push hs1 m.price m.order_id m.order_id
            rw [if_pos rfl] at hpush
            constructor
            · simp only
              omega
            · simp only [sideLadder, hbidm, if_pos]
              rw [lgetD, lget_lset_self, Option.getD_some, List.count_append]
              have h0 : (lgetD (lerase b.bids msg0.price) m.price).count
                  (Ref.reg m.order_id) = 0 := by
                have := lgetD_count_le_lcount hs1 m.price m.order_id
                omega
              rw [h0]
              simp
        · intro e he r hr
          rcases mem_lset he with heq | hel
          · subst heq
            simp only at hr
            rcases List.mem_append.mp hr with hv | hsing
            · rcases hv0 : lget (lerase b.bids msg0.price) m.price with _ | v
              · rw [lgetD, hv0] at hv; simp at hv
              · rw [lgetD, hv0] at hv
                have hmem := mem_lerase (mem_of_lget_eq_some hv0)
                exact refBackedB_oset _ _ _ _ (hbb _ hmem r hv)
            · have : r = Ref.reg m.order_id := by simpa using hsing
              subst this
              simp [refBackedB, ofind_oset_eq_map, hfind]
          · exact refBackedB_oset _ _ _ _ (hbb _ (mem_lerase hel) r hr)
        · intro e he r hr
          exact refBackedB_oset _ _ _ _ (hbo e he r hr)
      · have hv1' : ¬ (lgetD b.bids msg0.price).filter
            (fun r => !decide (r = Ref.reg m.order_id)) = [] := by
          simpa only [ne_eq, decide_not] using hv1
        have hbook : b.modify m = ⟨oset b.orders m.order_id m,
            lset (lset b.bids msg0.price
                ((lgetD b.bids msg0.price).filter (fun r => r ≠ Ref.reg m.order_id)))
              m.price
              (lgetD (lset b.bids msg0.price
                  ((lgetD b.bids msg0.price).filter (fun r => r ≠ Ref.reg m.order_id)))
                m.price ++ [Ref.reg m.order_id]),
            b.offers⟩ := by
          simp [OrderBook.modify, hfind, hsd, hbp, hv1']
        rw [hbook]
        have hs1 : LSorted (lset b.bids msg0.price
            ((lgetD b.bids msg0.price).filter (fun r => r ≠ Ref.reg m.order_id))) :=
          lsorted_lset _ _ hsb
        have hl1count : lcount m.order_id (lset b.bids msg0.price
            ((lgetD b.bids msg0.price).filter (fun r => r ≠ Ref.reg m.order_id))) = 0 := by
          have := lcount_lset m.order_id msg0.price
            ((lgetD b.bids msg0.price).filter (fun r => r ≠ Ref.reg m.order_id)) hsb
          rw [count_filter_ne_self] at this
          omega
        have hosnd : (okeys (oset b.orders m.order_id m)).Nodup := by
          rw [okeys_oset]; exact hnd
        refine ⟨hosnd, lsorted_lset _ _ hs1, hso, ?_, ?_, ?_, ?_⟩
        · intro kv hkv
          rcases mem_oset_cases hnd hkv with ⟨_, hold⟩ | heq
          · exact hkey kv hold
          · rw [heq]
        · intro kv hkv
          rcases mem_oset_cases hnd hkv with ⟨hne, hold⟩ | heq
          · obtain ⟨hk1, hk2⟩ := hcnt kv hold
            have hfo := count_filter_ne_other (lgetD b.bids msg0.price) hne
            have hsplitk := lcount_split kv.1 msg0.price hsb
            have hl1k := lcount_lset kv.1 msg0.price
              ((lgetD b.bids msg0.price).filter (fun r => r ≠ Ref.reg m.order_id)) hsb
            rw [hfo] at hl1k
            have hpushk := lcount_push hs1 m.price m.order_id kv.1
            rw [if_neg hne] at hpushk
            constructor
            · simp only
              omega
            · by_cases hcs : kv.2.side = 'B'
              · simp only [sideLadder, hcs, if_pos] at hk2 ⊢
                by_cases hqm : kv.2.price = m.price
                · rw [hqm] at hk2 ⊢
                  rw [lgetD, lget_lset_self, Option.getD_some, List.count_append,
                    count_reg_singleton_ne hne]
                  rw [lgetD, lget_lset_ne _ _ _ _ (by omega : m.price ≠ msg0.price)]
                  simpa [lgetD] using hk2
                · by_cases hq0 : kv.2.price = msg0.price
                  · rw [hq0] at hk2 ⊢
                    rw [lgetD, lget_lset_ne _ _ _ _ (by omega : msg0.price ≠ m.price),
                      lget_lset_self, Option.getD_some, hfo]
                    exact hk2
                  · rw [lgetD, lget_lset_ne _ _ _ _ hqm, lget_lset_ne _ _ _ _ hq0]
                    simpa [lgetD] using hk2
              · simp only [sideLadder, hcs, if_neg, not_false_iff] at hk2 ⊢
                exact hk2
          · rw [heq]
            have hpush := lcount_push hs1 m.price m.order_id m.order_id
            rw [if_pos rfl] at hpush
            constructor
            · simp only
              omega
            · simp only [sideLadder, hbidm, if_pos]
              rw [lgetD, lget_lset_self, Option.getD_some, List.count_append]
              have h0 : (lgetD (lset b.bids msg0.price
                  ((lgetD b.bids msg0.price).filter (fun r => r ≠ Ref.reg m.order_id)))
                  m.price).count (Ref.reg m.order_id) = 0 := by
                have := lgetD_count_le_lcount hs1 m.price m.order_id
                omega
              rw [h0]
              simp
        · intro e he r hr
          rcases mem_lset he with heq | hel
          · subst heq
            simp only at hr
            rcases List.mem_append.mp hr with hv | hsing
            · rcases hv0 : lget (lset b.bids msg0.price
                  ((lgetD b.bids msg0.price).filter (fun r => r ≠ Ref.reg m.order_id)))
                  m.price with _ | v
              · rw [lgetD, hv0] at hv; simp at hv
              · rw [lgetD, hv0] at hv
                rcases mem_lset (mem_of_lget_eq_some hv0) with heq2 | hel2
                · have hveq : v = (lgetD b.bids msg0.price).filter
                      (fun r => r ≠ Ref.reg m.order_id) := congrArg Prod.snd heq2
                  subst hveq
                  obtain ⟨hrv0, _⟩ := mem_of_mem_filter_ne hv
                  rcases hv00 : lget b.bids msg0.price with _ | v0
                  · rw [lgetD, hv00] at hrv0; simp at hrv0
                  · rw [lgetD, hv00] at hrv0
                    exact refBackedB_oset _ _ _ _
                      (hbb _ (mem_of_lget_eq_some hv00) r hrv0)
                · exact refBackedB_oset _ _ _ _ (hbb _ hel2 r hv)
            · have : r = Ref.reg m.order_id := by simpa using hsing
              subst this
              simp [refBackedB, ofind_oset_eq_map, hfind]
          · rcases mem_lset hel with heq2 | hel2
            · have hveq : e.2 = (lgetD b.bids msg0.price).filter
                  (fun r => r ≠ Ref.reg m.order_id) := congrArg Prod.snd heq2
              rw [hveq] at hr
              obtain ⟨hrv0, _⟩ := mem_of_mem_filter_ne hr
              rcases hv00 : lget b.bids msg0.price with _ | v0
              · rw [lgetD, hv00] at hrv0; simp at hrv0
              · rw [lgetD, hv00] at hrv0
                exact refBackedB_oset _ _ _ _
                  (hbb _ (mem_of_lget_eq_some hv00) r hrv0)
            · exact refBackedB_oset _ _ _ _ (hbb _ hel2 r hr)
        · intro e he r hr
          exact refBackedB_oset _ _ _ _ (hbo e he r hr)
    · -- price unchanged
      have hpeq : msg0.price = m.price := by
        by_contra hc
        exact hbp hc
      by_cases hsz : msg0.size < m.size
      · -- priority loss: remove and re-append
        have hbook : b.modify m = ⟨oset b.orders m.order_id m,
            lset b.bids msg0.price
              ((lgetD b.bids msg0.price).filter (fun r => r ≠ Ref.reg m.order_id) ++
                [Ref.reg m.order_id]),
            b.offers⟩ := by
          simp [OrderBook.modify, hfind, hsd, hbp, hsz]
        rw [hbook]
        have hosnd : (okeys (oset b.orders m.order_id m)).Nodup := by
          rw [okeys_oset]; exact hnd
        refine ⟨hosnd, lsorted_lset _ _ hsb, hso, ?_, ?_, ?_, ?_⟩
        · intro kv hkv
          rcases mem_oset_cases hnd hkv with ⟨_, hold⟩ | heq
          · exact hkey kv hold
          · rw [heq]
        · intro kv hkv
          rcases mem_oset_cases hnd hkv with ⟨hne, hold⟩ | heq
          · obtain ⟨hk1, hk2⟩ := hcnt kv hold
            have hfo := count_filter_ne_other (lgetD b.bids msg0.price) hne
            have hsing := count_reg_singleton_ne hne
            have hsplitk := lcount_split kv.1 msg0.price hsb
            have hlsetk := lcount_lset kv.1 msg0.price
              ((lgetD b.bids msg0.price).filter (fun r => r ≠ Ref.reg m.order_id) ++
                [Ref.reg m.order_id]) hsb
            rw [List.count_append, hfo, hsing] at hlsetk
            constructor
            · simp only
              omega
            · by_cases hcs : kv.2.side = 'B'
              · simp only [sideLadder, hcs, if_pos] at hk2 ⊢
                by_cases hp : kv.2.price = msg0.price
                · rw [hp] at hk2 ⊢
                  rw [lgetD, lget_lset_self, Option.getD_some, List.count_append,
                    hfo, hsing]
                  simpa using hk2
                · rw [lgetD, lget_lset_ne _ _ _ _ hp]
                  simpa [lgetD] using hk2
              · simp only [sideLadder, hcs, if_neg, not_false_iff] at hk2 ⊢
                exact hk2
          · rw [heq]
            have hfs := count_filter_ne_self (lgetD b.bids msg0.price) m.order_id
            have hsing : List.count (Ref.reg m.order_id) [Ref.reg m.order_id] = 1 := by
              simp
            have hlsetk := lcount_lset m.order_id msg0.price
              ((lgetD b.bids msg0.price).filter (fun r => r ≠ Ref.reg m.order_id) ++
                [Ref.reg m.order_id]) hsb
            rw [List.count_append, hfs, hsing] at hlsetk
            constructor
            · simp only
              omega
            · simp only [sideLadder, hbidm, if_pos]
              rw [← hpeq]
              rw [lgetD, lget_lset_self, Option.getD_some, List.count_append,
                hfs, hsing]
        · intro e he r hr
          rcases mem_lset_sorted hsb he with heq | ⟨hel, _⟩
          · subst heq
            simp only at hr
            rcases List.mem_append.mp hr with hv | hsing
            · obtain ⟨hrv0, _⟩ := mem_of_mem_filter_ne hv
              rcases hv0 : lget b.bids msg0.price with _ | v
              · rw [lgetD, hv0] at hrv0; simp at hrv0
              · rw [lgetD, hv0] at hrv0
                exact refBackedB_oset _ _ _ _
                  (hbb _ (mem_of_lget_eq_some hv0) r hrv0)
            · have : r = Ref.reg m.order_id := by simpa using hsing
              subst this
              simp [refBackedB, ofind_oset_eq_map, hfind]
          · exact refBackedB_oset _ _ _ _ (hbb e hel r hr)
        · intro e he r hr
          exact refBackedB_oset _ _ _ _ (hbo e he r hr)
      · -- in place
        have hbook : b.modify m = ⟨oset b.orders m.order_id m, b.bids, b.offers⟩ := by
          simp [OrderBook.modify, hfind, hsd, hbp, hsz]
        rw [hbook]
        have hosnd : (okeys (oset b.orders m.order_id m)).Nodup := by
          rw [okeys_oset]; exact hnd
        refine ⟨hosnd, hsb, hso, ?_, ?_, ?_, ?_⟩
        · intro kv hkv
          rcases mem_oset_cases hnd hkv with ⟨_, hold⟩ | heq
          · exact hkey kv hold
          · rw [heq]
        · intro kv hkv
          rcases mem_oset_cases hnd hkv with ⟨hne, hold⟩ | heq
          · obtain ⟨hk1, hk2⟩ := hcnt kv hold
            constructor
            · simpa using hk1
            · by_cases hcs : kv.2.side = 'B'
              · simp only [sideLadder, hcs, if_pos] at hk2 ⊢
                exact hk2
              · simp only [sideLadder, hcs, if_neg, not_false_iff] at hk2 ⊢
                exact hk2
          · rw [heq]
            constructor
            · simpa using hc1
            · simp only [sideLadder, hbidm, if_pos]
              rw [← hpeq]
              exact hc2
        · intro e he r hr
          exact refBackedB_oset _ _ _ _ (hbb e he r hr)
        · intro e he r hr
          exact refBackedB_oset _ _ _ _ (hbo e he r hr)
  · have hbidm : ¬ m.side = 'B' := fun h => hsd (hiff.mp h)
    rw [sideLadder, if_neg hsd] at hc2
    have hcle := lgetD_count_le_lcount hso msg0.price m.order_id
    have hsplit0 := lcount_split m.order_id msg0.price hso
    have hLo : lcount m.order_id b.offers = 1 := by omega
    have hLb : lcount m.order_id b.bids = 0 := by omega
    have hlerase0 : lcount m.order_id (lerase b.offers msg0.price) = 0 := by
      omega
    by_cases hbp : msg0.price ≠ m.price
    · by_cases hv1 :
          (lgetD b.offers msg0.price).filter (fun r => r ≠ Ref.reg m.order_id) = []
      · have hv1' : (lgetD b.offers msg0.price).filter
            (fun r => !decide (r = Ref.reg m.order_id)) = [] := by
          simpa only [ne_eq, decide_not] using hv1
        have hbook : b.modify m = ⟨oset b.orders m.order_id m, b.bids,
            lset (lerase b.offers msg0.price) m.price
              (lgetD (lerase b.offers msg0.price) m.price ++ [Ref.reg m.order_id])⟩ := by
          simp [OrderBook.modify, hfind, hsd, hbp, hv1']
        rw [hbook]
        have hs1 : LSorted (lerase b.offers msg0.price) := lsorted_lerase _ hso
        have hosnd : (okeys (oset b.orders m.order_id m)).Nodup := by
          rw [okeys_oset]; exact hnd
        refine ⟨hosnd, hsb, lsorted_lset _ _ hs1, ?_, ?_, ?_, ?_⟩
        · intro kv hkv
          rcases mem_oset_cases hnd hkv with ⟨_, hold⟩ | heq
          · exact hkey kv hold
          · rw [heq]
        · intro kv hkv
          rcases mem_oset_cases hnd hkv with ⟨hne, hold⟩ | heq
          · obtain ⟨hk1, hk2⟩ := hcnt kv hold
            have hv0count : (lgetD b.offers msg0.price).count (Ref.reg kv.1) = 0 := by
              rw [List.count_eq_zero]
              intro hmem
              exact hne (Ref.reg.inj (filter_ne_all_eq hv1 _ hmem))
            have hsplitk := lcount_split kv.1 msg0.price hso
            rw [hv0count] at hsplitk
            have hpushk := lcount_push hs1 m.price m.order_id kv.1
            rw [if_neg hne] at hpushk
            constructor
            · simp only
              omega
            · by_cases hcs : kv.2.side = 'B'
              · simp only [sideLadder, hcs, if_pos] at hk2 ⊢
                exact hk2
              · simp only [sideLadder, hcs, if_neg, not_false_iff] at hk2 ⊢
                by_cases hqm : kv.2.price = m.price
                · rw [hqm] at hk2 ⊢
                  rw [lgetD, lget_lset_self, Option.getD_some, List.count_append,
                    count_reg_singleton_ne hne]
                  rw [lgetD, lget_lerase_ne _ _ _ (by omega : m.price ≠ msg0.price)]
                  simpa [lgetD] using hk2
                · by_cases hq0 : kv.2.price = msg0.price
                  · rw [hq0, hv0count] at hk2
                    exact absurd hk2 (by decide)
                  · rw [lgetD, lget_lset_ne _ _ _ _ hqm, lget_lerase_ne _ _ _ hq0]
                    simpa [lgetD] using hk2
          · rw [heq]
            have hpush := lcount_push hs1 m.price m.order_id m.order_id
            rw [if_pos rfl] at hpush
            constructor
            · simp only
              omega
            · simp only [sideLadder, hbidm, if_neg, not_false_iff]
              rw [lgetD, lget_lset_self, Option.getD_some, List.count_append]
              have h0 : (lgetD (lerase b.offers msg0.price) m.price).count
                  (Ref.reg m.order_id) = 0 := by
                have := lgetD_count_le_lcount hs1 m.price m.order_id
                omega
              rw [h0]
              simp
        · intro e he r hr
          exact refBackedB_oset _ _ _ _ (hbb e he r hr)
        · intro e he r hr
          rcases mem_lset he with heq | hel
          · subst heq
            simp only at hr
            rcases List.mem_append.mp hr with hv | hsing
            · rcases hv0 : lget (lerase b.offers msg0.price) m.price with _ | v
              · rw [lgetD, hv0] at hv; simp at hv
              · rw [lgetD, hv0] at hv
                have hmem := mem_lerase (mem_of_lget_eq_some hv0)
                exact refBackedB_oset _ _ _ _ (hbo _ hmem r hv)
            · have : r = Ref.reg m.order_id := by simpa using hsing
              subst this
              simp [refBackedB, ofind_oset_eq_map, hfind]
          · exact refBackedB_oset _ _ _ _ (hbo _ (mem_lerase hel) r hr)
      · have hv1' : ¬ (lgetD b.offers msg0.price).filter
            (fun r => !decide (r = Ref.reg m.order_id)) = [] := by
          simpa only [ne_eq, decide_not] using hv1
        have hbook : b.modify m = ⟨oset b.orders m.order_id m, b.bids,
            lset (lset b.offers msg0.price
                ((lgetD b.offers msg0.price).filter (fun r => r ≠ Ref.reg m.order_id)))
              m.price
              (lgetD (lset b.offers msg0.price
                  ((lgetD b.offers msg0.price).filter (fun r => r ≠ Ref.reg m.order_id)))
                m.price ++ [Ref.reg m.order_id])⟩ := by
          simp [OrderBook.modify, hfind, hsd, hbp, hv1']
        rw [hbook]
        have hs1 : LSorted (lset b.offers msg0.price
            ((lgetD b.offers msg0.price).filter (fun r => r ≠ Ref.reg m.order_id))) :=
          lsorted_lset _ _ hso
        have hl1count : lcount m.order_id (lset b.offers msg0.price
            ((lgetD b.offers msg0.price).filter (fun r => r ≠ Ref.reg m.order_id))) = 0 := by
          have := lcount_lset m.order_id msg0.price
            ((lgetD b.offers msg0.price).filter (fun r => r ≠ Ref.reg m.order_id)) hso
          rw [count_filter_ne_self] at this
          omega
        have hosnd : (okeys (oset b.orders m.order_id m)).Nodup := by
          rw [okeys_oset]; exact hnd
        refine ⟨hosnd, hsb, lsorted_lset _ _ hs1, ?_, ?_, ?_, ?_⟩
        · intro kv hkv
          rcases mem_oset_cases hnd hkv with ⟨_, hold⟩ | heq
          · exact hkey kv hold
          · rw [heq]
        · intro kv hkv
          rcases mem_oset_cases hnd hkv with ⟨hne, hold⟩ | heq
          · obtain ⟨hk1, hk2⟩ := hcnt kv hold
            have hfo := count_filter_ne_other (lgetD b.offers msg0.price) hne
            have hsplitk := lcount_split kv.1 msg0.price hso
            have hl1k := lcount_lset kv.1 msg0.price
              ((lgetD b.offers msg0.price).filter (fun r => r ≠ Ref.reg m.order_id)) hso
            rw [hfo] at hl1k
            have hpushk := lcount_push hs1 m.price m.order_id kv.1
            rw [if_neg hne] at hpushk
            constructor
            · simp only
              omega
            · by_cases hcs : kv.2.side = 'B'
              · simp only [sideLadder, hcs, if_pos] at hk2 ⊢
                exact hk2
              · simp only [sideLadder, hcs, if_neg, not_false_iff] at hk2 ⊢
                by_cases hqm : kv.2.price = m.price
                · rw [hqm] at hk2 ⊢
                  rw [lgetD, lget_lset_self, Option.getD_some, List.count_append,
                    count_reg_singleton_ne hne]
                  rw [lgetD, lget_lset_ne _ _ _ _ (by omega : m.price ≠ msg0.price)]
                  simpa [lgetD] using hk2
                · by_cases hq0 : kv.2.price = msg0.price
                  · rw [hq0] at hk2 ⊢
                    rw [lgetD, lget_lset_ne _ _ _ _ (by omega : msg0.price ≠ m.price),
                      lget_lset_self, Option.getD_some, hfo]
                    exact hk2
                  · rw [lgetD, lget_lset_ne _ _ _ _ hqm, lget_lset_ne _ _ _ _ hq0]
                    simpa [lgetD] using hk2
          · rw [heq]
            have hpush := lcount_push hs1 m.price m.order_id m.order_id
            rw [if_pos rfl] at hpush
            constructor
            · simp only
              omega
            · simp only [sideLadder, hbidm, if_neg, not_false_iff]
              rw [lgetD, lget_lset_self, Option.getD_some, List.count_append]
              have h0 : (lgetD (lset b.offers msg0.price
                  ((lgetD b.offers msg0.price).filter (fun r => r ≠ Ref.reg m.order_id)))
                  m.price).count (Ref.reg m.order_id) = 0 := by
                have := lgetD_count_le_lcount hs1 m.price m.order_id
                omega
              rw [h0]
              simp
        · intro e he r hr
          exact refBackedB_oset _ _ _ _ (hbb e he r hr)
        · intro e he r hr
          rcases mem_lset he with heq | hel
          · subst heq
            simp only at hr
            rcases List.mem_append.mp hr with hv | hsing
            · rcases hv0 : lget (lset b.offers msg0.price
                  ((lgetD b.offers msg0.price).filter (fun r => r ≠ Ref.reg m.order_id)))
                  m.price with _ | v
              · rw [lgetD, hv0] at hv; simp at hv
              · rw [lgetD, hv0] at hv
                rcases mem_lset (mem_of_lget_eq_some hv0) with heq2 | hel2
                · have hveq : v = (lgetD b.offers msg0.price).filter
                      (fun r => r ≠ Ref.reg m.order_id) := congrArg Prod.snd heq2
                  subst hveq
                  obtain ⟨hrv0, _⟩ := mem_of_mem_filter_ne hv
                  rcases hv00 : lget b.offers msg0.price with _ | v0
                  · rw [lgetD, hv00] at hrv0; simp at hrv0
                  · rw [lgetD, hv00] at hrv0
                    exact refBackedB_oset _ _ _ _
                      (hbo _ (mem_of_lget_eq_some hv00) r hrv0)
                · exact refBackedB_oset _ _ _ _ (hbo _ hel2 r hv)
            · have : r = Ref.reg m.order_id := by simpa using hsing
              subst this
              simp [refBackedB, ofind_oset_eq_map, hfind]
          · rcases mem_lset hel with heq2 | hel2
            · have hveq : e.2 = (lgetD b.offers msg0.price).filter
                  (fun r => r ≠ Ref.reg m.order_id) := congrArg Prod.snd heq2
              rw [hveq] at hr
              obtain ⟨hrv0, _⟩ := mem_of_mem_filter_ne hr
              rcases hv00 : lget b.offers msg0.price with _ | v0
              · rw [lgetD, hv00] at hrv0; simp at hrv0
              · rw [lgetD, hv00] at hrv0
                exact refBackedB_oset _ _ _ _
                  (hbo _ (mem_of_lget_eq_some hv00) r hrv0)
            · exact refBackedB_oset _ _ _ _ (hbo _ hel2 r hr)
    · have hpeq : msg0.price = m.price := by
        by_contra hc
        exact hbp hc
      by_cases hsz : msg0.size < m.size
      · have hbook : b.modify m = ⟨oset b.orders m.order_id m, b.bids,
            lset b.offers msg0.price
              ((lgetD b.offers msg0.price).filter (fun r => r ≠ Ref.reg m.order_id) ++
                [Ref.reg m.order_id])⟩ := by
          simp [OrderBook.modify, hfind, hsd, hbp, hsz]
        rw [hbook]
        have hosnd : (okeys (oset b.orders m.order_id m)).Nodup := by
          rw [okeys_oset]; exact hnd
        refine ⟨hosnd, hsb, lsorted_lset _ _ hso, ?_, ?_, ?_, ?_⟩
        · intro kv hkv
          rcases mem_oset_cases hnd hkv with ⟨_, hold⟩ | heq
          · exact hkey kv hold
          · rw [heq]
        · intro kv hkv
          rcases mem_oset_cases hnd hkv with ⟨hne, hold⟩ | heq
          · obtain ⟨hk1, hk2⟩ := hcnt kv hold
            have hfo := count_filter_ne_other (lgetD b.offers msg0.price) hne
            have hsing := count_reg_singleton_ne hne
            have hsplitk := lcount_split kv.1 msg0.price hso
            have hlsetk := lcount_lset kv.1 msg0.price
              ((lgetD b.offers msg0.price).filter (fun r => r ≠ Ref.reg m.order_id) ++
                [Ref.reg m.order_id]) hso
            rw [List.count_append, hfo, hsing] at hlsetk
            constructor
            · simp only
              omega
            · by_cases hcs : kv.2.side = 'B'
              · simp only [sideLadder, hcs, if_pos] at hk2 ⊢
                exact hk2
              · simp only [sideLadder, hcs, if_neg, not_false_iff] at hk2 ⊢
                by_cases hp : kv.2.price = msg0.price
                · rw [hp] at hk2 ⊢
                  rw [lgetD, lget_lset_self, Option.getD_some, List.count_append,
                    hfo, hsing]
                  simpa using hk2
                · rw [lgetD, lget_lset_ne _ _ _ _ hp]
                  simpa [lgetD] using hk2
          · rw [heq]
            have hfs := count_filter_ne_self (lgetD b.offers msg0.price) m.order_id
            have hsing : List.count (Ref.reg m.order_id) [Ref.reg m.order_id] = 1 := by
              simp
            have hlsetk := lcount_lset m.order_id msg0.price
              ((lgetD b.offers msg0.price).filter (fun r => r ≠ Ref.reg m.order_id) ++
                [Ref.reg m.order_id]) hso
            rw [List.count_append, hfs, hsing] at hlsetk
            constructor
            · simp only
              omega
            · simp only [sideLadder, hbidm, if_neg, not_false_iff]
              rw [← hpeq]
              rw [lgetD, lget_lset_self, Option.getD_some, List.count_append,
                hfs, hsing]
        · intro e he r hr
          exact refBackedB_oset _ _ _ _ (hbb e he r hr)
        · intro e he r hr
          rcases mem_lset_sorted hso he with heq | ⟨hel, _⟩
          · subst heq
            simp only at hr
            rcases List.mem_append.mp hr with hv | hsing
            · obtain ⟨hrv0, _⟩ := mem_of_mem_filter_ne hv
              rcases hv0 : lget b.offers msg0.price with _ | v
              · rw [lgetD, hv0] at hrv0; simp at hrv0
              · rw [lgetD, hv0] at hrv0
                exact refBackedB_oset _ _ _ _
                  (hbo _ (mem_of_lget_eq_some hv0) r hrv0)
            · have : r = Ref.reg m.order_id := by simpa using hsing
              subst this
              simp [refBackedB, ofind_oset_eq_map, hfind]
          · exact refBackedB_oset _ _ _ _ (hbo e hel r hr)
      · have hbook : b.modify m = ⟨oset b.orders m.order_id m, b.bids, b.offers⟩ := by
          simp [OrderBook.modify, hfind, hsd, hbp, hsz]
        rw [hbook]
        have hosnd : (okeys (oset b.orders m.order_id m)).Nodup := by
          rw [okeys_oset]; exact hnd
        refine ⟨hosnd, hsb, hso, ?_, ?_, ?_, ?_⟩
        · intro kv hkv
          rcases mem_oset_cases hnd hkv with ⟨_, hold⟩ | heq
          · exact hkey kv hold
          · rw [heq]
        · intro kv hkv
          rcases mem_oset_cases hnd hkv with ⟨hne, hold⟩ | heq
          · obtain ⟨hk1, hk2⟩ := hcnt kv hold
            constructor
            · simpa using hk1
            · by_cases hcs : kv.2.side = 'B'
              · simp only [sideLadder, hcs, if_pos] at hk2 ⊢
                exact hk2
              · simp only [sideLadder, hcs, if_neg, not_false_iff] at hk2 ⊢
                exact hk2
          · rw [heq]
            constructor
            · simpa using hc1
            · simp only [sideLadder, hbidm, if_neg, not_false_iff]
              rw [← hpeq]
              exact hc2
        · intro e he r hr
          exact refBackedB_oset _ _ _ _ (hbb e he r hr)
        · intro e he r hr
          exact refBackedB_oset _ _ _ _ (hbo e he r hr)

/-! ### Claim theorems -/

theorem beq_side_iff {c1 c2 : Char} (h : ((c1 == 'B') == (c2 == 'B')) = true) :
    (c1 = 'B') ↔ (c2 = 'B') := by
  have h' : (c1 == 'B') = (c2 == 'B') := by simpa using h
  constructor
  · intro hh
    have h2 : (c2 == 'B') = true := by rw [← h']; simp [hh]
    simpa using h2
  · intro hh
    have h2 : (c1 == 'B') = true := by rw [h']; simp [hh]
    simpa using h2

/-- C1: after an Add with the top-of-book-replacement flag (bit 6) set, the
side ladder holds a borrowed pointer into the caller-scoped event value
(`lvl[m.price] = { &m }` in the source) instead of a privately owned copy;
the synthetic level is exactly one entry whose member is that borrowed
pointer.  This is the failing behaviour the claim (and spec §9) forbids. -/
theorem C1_flagged_add_stores_borrowed_ref :
    borrowsEvent (OrderBook.empty.apply (mkEvent 'A' 'B' 1005 10 7 64)) = true ∧
    (OrderBook.empty.apply (mkEvent 'A' 'B' 1005 10 7 64)).bids =
      [(1005, [Ref.event (mkEvent 'A' 'B' 1005 10 7 64)])] :=
  ⟨by decide, by decide⟩

/-- C2 counterexample: adding a second event with an already-registered order
id does NOT replace the prior order's data (`emplace` keeps the old entry),
and the order ends up referenced twice in its ladder — at the stated input
the registry still holds the first event (size 10, not 5) and the bid level
holds two references to order 1, refuting both conjuncts of the claim. -/
theorem C2_counterexample :
    ofind ((OrderBook.empty.apply (mkEvent 'A' 'B' 100 10 1 0)).apply
        (mkEvent 'A' 'B' 100 5 1 0)).orders 1 = some (mkEvent 'A' 'B' 100 10 1 0) ∧
    mkEvent 'A' 'B' 100 10 1 0 ≠ mkEvent 'A' 'B' 100 5 1 0 ∧
    lcount 1 ((OrderBook.empty.apply (mkEvent 'A' 'B' 100 10 1 0)).apply
        (mkEvent 'A' 'B' 100 5 1 0)).bids = 2 :=
  ⟨by decide, by decide, by decide⟩

/-- C3 counterexample: the registry/ladder invariant does not hold after
every apply on every reachable state — one ordinary Add (a reachable,
invariant-satisfying state) followed by a well-formed flagged Add leaves
order 1 registered but referenced by no ladder entry, and the synthetic
level holds a reference backed by no registry order. -/
theorem C3_counterexample :
    InvBook (OrderBook.empty.apply (mkEvent 'A' 'B' 100 10 1 0)) ∧
    ¬ InvBook ((OrderBook.empty.apply (mkEvent 'A' 'B' 100 10 1 0)).apply
      (mkEvent 'A' 'B' 200 7 2 64)) :=
  ⟨by decide, by decide⟩

/-- C3 (amended): the registry/ladder mutual-consistency invariant — every
registered order referenced by exactly one ladder entry, at its stored price
on its stored side, and every ladder reference backed by a live registry
order — is preserved by `apply` for every tame event: unflagged Adds with a
fresh id, Cancels and Modifies whose event side selects the stored order's
ladder, unknown-id Modifies without the flag, and all Clear/Trade/Fill/None
events. -/
theorem C3_invariant_preserved (b : OrderBook) (m : MboMessage)
    (hInv : InvBook b) (ht : tameB b m = true) : InvBook (b.apply m) := by
  by_cases hR : m.action = 'R'
  · have happ : b.apply m = OrderBook.empty := by
      simp [OrderBook.apply, hR, OrderBook.clear]
    rw [happ]
    exact inv_empty
  by_cases hA : m.action = 'A'
  · have happ : b.apply m = b.add m := by simp [OrderBook.apply, hR, hA]
    rw [happ]
    rw [tameB, if_pos hA] at ht
    simp only [Bool.and_eq_true, Bool.not_eq_true'] at ht
    obtain ⟨hflag, hnone⟩ := ht
    exact inv_add hInv hflag (Option.isNone_iff_eq_none.mp hnone)
  by_cases hC : m.action = 'C'
  · have happ : b.apply m = b.cancel m := by simp [OrderBook.apply, hR, hA, hC]
    rw [happ]
    rw [tameB, if_neg (by simp [hA]), if_pos hC] at ht
    apply inv_cancel hInv
    intro msg hfind
    simp only [hfind] at ht
    exact beq_side_iff ht
  by_cases hM : m.action = 'M'
  · have happ : b.apply m = b.modify m := by
      simp [OrderBook.apply, hR, hA, hC, hM]
    rw [happ]
    rw [tameB, if_neg (by simp [hA]), if_neg (by simp [hC]), if_pos hM] at ht
    apply inv_modify hInv
    · intro hfind
      simp only [hfind, Bool.not_eq_true'] at ht
      exact ht
    · intro msg hfind
      simp only [hfind] at ht
      exact beq_side_iff ht
  · have happ : b.apply m = b := by simp [OrderBook.apply, hR, hA, hC, hM]
    rw [happ]
    exact hInv

/-- C3 witness: a concrete invariant-satisfying book, a concrete tame event
(a matching-side Cancel), and the preserved invariant. -/
theorem C3_witness :
    InvBook (OrderBook.empty.apply (mkEvent 'A' 'B' 100 10 1 0)) ∧
    tameB (OrderBook.empty.apply (mkEvent 'A' 'B' 100 10 1 0))
      (mkEvent 'C' 'B' 0 4 1 0) = true ∧
    InvBook ((OrderBook.empty.apply (mkEvent 'A' 'B' 100 10 1 0)).apply
      (mkEvent 'C' 'B' 0 4 1 0)) :=
  ⟨by decide, by decide, C3_invariant_preserved _ _ (by decide) (by decide)⟩

/-- C4 counterexample: a Modify naming an unknown order id but carrying the
top-of-book-replacement flag does NOT act as an Add with the flag not set —
on a book with one resting bid, the Modify clears the bid ladder and
installs a synthetic level, while the unflagged Add with the same fields
registers a new order; the resulting states differ. -/
theorem C4_counterexample :
    (OrderBook.empty.apply (mkEvent 'A' 'B' 100 10 1 0)).apply
      (mkEvent 'M' 'B' 300 4 9 64) ≠
    (OrderBook.empty.apply (mkEvent 'A' 'B' 100 10 1 0)).apply
      (mkEvent 'A' 'B' 300 4 9 0) := by
  decide

/-- C2 (amended): an unflagged Add whose order id already exists leaves the
registry unchanged — first write wins, because `std::unordered_map::emplace`
does not overwrite — and appends one more reference to the EXISTING order at
the ladder entry for the new event's price on the event's side (so the order
can become referenced by two ladder entries, or twice by one); the opposite
ladder is unchanged. -/
theorem C2_add_existing_id (b : OrderBook) (m msg0 : MboMessage)
    (hA : m.action = 'A') (hflag : m.flags.testBit 6 = false)
    (hfound : ofind b.orders m.order_id = some msg0) :
    (b.apply m).orders = b.orders ∧
    lgetD (sideLadder (b.apply m) m.side) m.price =
      lgetD (sideLadder b m.side) m.price ++ [Ref.reg m.order_id] ∧
    (if m.side = 'B' then (b.apply m).offers = b.offers
     else (b.apply m).bids = b.bids) := by
  have happ : b.apply m = b.add m := by simp [OrderBook.apply, hA]
  rw [happ]
  by_cases hside : m.side = 'B'
  · have hadd : b.add m = ⟨emplace b.orders m.order_id m,
        lset b.bids m.price (lgetD b.bids m.price ++ [Ref.reg m.order_id]),
        b.offers⟩ := by
      simp [OrderBook.add, hflag, hside]
    rw [hadd]
    refine ⟨emplace_of_found m hfound, ?_, by simp [hside]⟩
    simp only [sideLadder, hside, if_pos]
    rw [lgetD, lget_lset_self, Option.getD_some]
  · have hadd : b.add m = ⟨emplace b.orders m.order_id m, b.bids,
        lset b.offers m.price (lgetD b.offers m.price ++ [Ref.reg m.order_id])⟩ := by
      simp [OrderBook.add, hflag, hside]
    rw [hadd]
    refine ⟨emplace_of_found m hfound, ?_, by simp [hside]⟩
    simp only [sideLadder, hside, if_neg, not_false_iff]
    rw [lgetD, lget_lset_self, Option.getD_some]

/-- C2 witness: duplicate Add of order id 1 on a one-order book. -/
theorem C2_witness :
    (mkEvent 'A' 'B' 100 5 1 0).action = 'A' ∧
    (mkEvent 'A' 'B' 100 5 1 0).flags.testBit 6 = false ∧
    ofind (OrderBook.empty.apply (mkEvent 'A' 'B' 100 10 1 0)).orders
      (mkEvent 'A' 'B' 100 5 1 0).order_id = some (mkEvent 'A' 'B' 100 10 1 0) ∧
    (((OrderBook.empty.apply (mkEvent 'A' 'B' 100 10 1 0)).apply
        (mkEvent 'A' 'B' 100 5 1 0)).orders =
      (OrderBook.empty.apply (mkEvent 'A' 'B' 100 10 1 0)).orders ∧
    lgetD (sideLadder ((OrderBook.empty.apply (mkEvent 'A' 'B' 100 10 1 0)).apply
        (mkEvent 'A' 'B' 100 5 1 0)) (mkEvent 'A' 'B' 100 5 1 0).side)
        (mkEvent 'A' 'B' 100 5 1 0).price =
      lgetD (sideLadder (OrderBook.empty.apply (mkEvent 'A' 'B' 100 10 1 0))
        (mkEvent 'A' 'B' 100 5 1 0).side) (mkEvent 'A' 'B' 100 5 1 0).price ++
        [Ref.reg (mkEvent 'A' 'B' 100 5 1 0).order_id] ∧
    (if (mkEvent 'A' 'B' 100 5 1 0).side = 'B'
     then ((OrderBook.empty.apply (mkEvent 'A' 'B' 100 10 1 0)).apply
        (mkEvent 'A' 'B' 100 5 1 0)).offers =
       (OrderBook.empty.apply (mkEvent 'A' 'B' 100 10 1 0)).offers
     else ((OrderBook.empty.apply (mkEvent 'A' 'B' 100 10 1 0)).apply
        (mkEvent 'A' 'B' 100 5 1 0)).bids =
       (OrderBook.empty.apply (mkEvent 'A' 'B' 100 10 1 0)).bids)) :=
  ⟨rfl, by decide, by decide,
    C2_add_existing_id _ _ (mkEvent 'A' 'B' 100 10 1 0) rfl (by decide) (by decide)⟩

/-- C4 (amended): a Modify whose order id is not in the registry is applied
exactly as `OrderBook::add` applied to the same Modify record with its own
flag bits: with the flag clear it registers the record as a new resting
order and appends its reference at the event's price; with the flag set it
performs a top-of-book replacement instead of creating an order. -/
theorem C4_modify_unknown (b : OrderBook) (m : MboMessage)
    (hM : m.action = 'M') (hfresh : ofind b.orders m.order_id = none) :
    b.apply m = b.add m ∧
    (m.flags.testBit 6 = false →
      ofind (b.apply m).orders m.order_id = some m ∧
      lgetD (sideLadder (b.apply m) m.side) m.price =
        lgetD (sideLadder b m.side) m.price ++ [Ref.reg m.order_id]) := by
  have happ : b.apply m = b.modify m := by simp [OrderBook.apply, hM]
  have hmod : b.modify m = b.add m := by simp [OrderBook.modify, hfresh]
  refine ⟨happ.trans hmod, ?_⟩
  intro hflag
  rw [happ, hmod]
  by_cases hside : m.side = 'B'
  · have hadd : b.add m = ⟨emplace b.orders m.order_id m,
        lset b.bids m.price (lgetD b.bids m.price ++ [Ref.reg m.order_id]),
        b.offers⟩ := by
      simp [OrderBook.add, hflag, hside]
    rw [hadd]
    refine ⟨ofind_emplace_self m hfresh, ?_⟩
    simp only [sideLadder, hside, if_pos]
    rw [lgetD, lget_lset_self, Option.getD_some]
  · have hadd : b.add m = ⟨emplace b.orders m.order_id m, b.bids,
        lset b.offers m.price (lgetD b.offers m.price ++ [Ref.reg m.order_id])⟩ := by
      simp [OrderBook.add, hflag, hside]
    rw [hadd]
    refine ⟨ofind_emplace_self m hfresh, ?_⟩
    simp only [sideLadder, hside, if_neg, not_false_iff]
    rw [lgetD, lget_lset_self, Option.getD_some]

/-- C4 witness: an unflagged unknown-id Modify on a one-order book. -/
theorem C4_witness :
    (mkEvent 'M' 'B' 300 4 9 0).action = 'M' ∧
    ofind (OrderBook.empty.apply (mkEvent 'A' 'B' 100 10 1 0)).orders
      (mkEvent 'M' 'B' 300 4 9 0).order_id = none ∧
    ((OrderBook.empty.apply (mkEvent 'A' 'B' 100 10 1 0)).apply
        (mkEvent 'M' 'B' 300 4 9 0) =
      (OrderBook.empty.apply (mkEvent 'A' 'B' 100 10 1 0)).add
        (mkEvent 'M' 'B' 300 4 9 0) ∧
    ((mkEvent 'M' 'B' 300 4 9 0).flags.testBit 6 = false →
      ofind ((OrderBook.empty.apply (mkEvent 'A' 'B' 100 10 1 0)).apply
          (mkEvent 'M' 'B' 300 4 9 0)).orders (mkEvent 'M' 'B' 300 4 9 0).order_id =
        some (mkEvent 'M' 'B' 300 4 9 0) ∧
      lgetD (sideLadder ((OrderBook.empty.apply (mkEvent 'A' 'B' 100 10 1 0)).apply
          (mkEvent 'M' 'B' 300 4 9 0)) (mkEvent 'M' 'B' 300 4 9 0).side)
          (mkEvent 'M' 'B' 300 4 9 0).price =
        lgetD (sideLadder (OrderBook.empty.apply (mkEvent 'A' 'B' 100 10 1 0))
          (mkEvent 'M' 'B' 300 4 9 0).side) (mkEvent 'M' 'B' 300 4 9 0).price ++
          [Ref.reg (mkEvent 'M' 'B' 300 4 9 0).order_id])) :=
  ⟨rfl, by decide, C4_modify_unknown _ _ rfl (by decide)⟩

theorem sideRows_single_getElem_zero (os : List (Nat × MboMessage)) (p : Int)
    (v : Level) (d : Nat) (hd : 1 ≤ d) :
    (sideRows os [(p, v)] d)[0]? = some (levelRow os (p, v)) := by
  rw [sideRows]
  have ht : (([((p : Int), v)] : Ladder)).take d = [(p, v)] :=
    List.take_of_length_le (by simpa using hd)
  rw [ht]
  simp

/-- C6: an Add with the top-of-book-replacement flag set removes every
existing level from that side's ladder without removing any order from the
registry, installs exactly one (synthetic) level at the event's price on
that side, and the immediately following snapshot reports that level as
(event price, size 0, count 0) regardless of the event's size field. -/
theorem C6_flagged_add (b : OrderBook) (m : MboMessage) (d : Nat)
    (hA : m.action = 'A') (hflag : m.flags.testBit 6 = true) (hd : 1 ≤ d) :
    (b.apply m).orders = b.orders ∧
    (if m.side = 'B'
      then (b.apply m).bids = [(m.price, [Ref.event m])] ∧
        (b.apply m).offers = b.offers
      else (b.apply m).offers = [(m.price, [Ref.event m])] ∧
        (b.apply m).bids = b.bids) ∧
    (if m.side = 'B'
      then ((b.apply m).snapshot d)[0]? = some ⟨m.price, 0, 0⟩
      else ((b.apply m).snapshot d)[d]? = some ⟨m.price, 0, 0⟩) := by
  have happ : b.apply m = b.add m := by simp [OrderBook.apply, hA]
  have hrow : levelRow b.orders (m.price, [Ref.event m]) = ⟨m.price, 0, 0⟩ := by
    simp [levelRow, levelAgg_event_flagged b.orders m hflag]
  by_cases hside : m.side = 'B'
  · have hadd : b.add m = ⟨b.orders, [(m.price, [Ref.event m])], b.offers⟩ := by
      simp [OrderBook.add, hflag, hside]
    rw [happ, hadd]
    refine ⟨rfl, by simp [hside], ?_⟩
    simp only [hside, if_pos]
    show ((OrderBook.snapshot ⟨b.orders, [(m.price, [Ref.event m])], b.offers⟩ d))[0]? =
      some ⟨m.price, 0, 0⟩
    rw [OrderBook.snapshot]
    have hrev : (([((m.price : Int), [Ref.event m])] : Ladder)).reverse =
        [(m.price, [Ref.event m])] := rfl
    show (sideRows b.orders ([((m.price : Int), [Ref.event m])] : Ladder).reverse d ++
      sideRows b.orders b.offers d)[0]? = some ⟨m.price, 0, 0⟩
    rw [hrev, List.getElem?_append, if_pos (by rw [sideRows_length]; omega)]
    rw [sideRows_single_getElem_zero _ _ _ _ hd, hrow]
  · have hadd : b.add m = ⟨b.orders, b.bids, [(m.price, [Ref.event m])]⟩ := by
      simp [OrderBook.add, hflag, hside]
    rw [happ, hadd]
    refine ⟨rfl, by simp [hside], ?_⟩
    simp only [hside, if_neg, not_false_iff]
    show ((OrderBook.snapshot ⟨b.orders, b.bids, [(m.price, [Ref.event m])]⟩ d))[d]? =
      some ⟨m.price, 0, 0⟩
    rw [OrderBook.snapshot]
    rw [List.getElem?_append_right (by rw [sideRows_length])]
    rw [sideRows_length]
    simp only [Nat.sub_self]
    rw [sideRows_single_getElem_zero _ _ _ _ hd, hrow]

/-- C6 witness: a flagged Add on a book holding one ordinary bid order. -/
theorem C6_witness :
    (mkEvent 'A' 'B' 200 7 2 64).action = 'A' ∧
    (mkEvent 'A' 'B' 200 7 2 64).flags.testBit 6 = true ∧
    1 ≤ 2 ∧
    (((OrderBook.empty.apply (mkEvent 'A' 'B' 100 10 1 0)).apply
        (mkEvent 'A' 'B' 200 7 2 64)).orders =
      (OrderBook.empty.apply (mkEvent 'A' 'B' 100 10 1 0)).orders ∧
    (if (mkEvent 'A' 'B' 200 7 2 64).side = 'B'
      then ((OrderBook.empty.apply (mkEvent 'A' 'B' 100 10 1 0)).apply
          (mkEvent 'A' 'B' 200 7 2 64)).bids =
        [((mkEvent 'A' 'B' 200 7 2 64).price, [Ref.event (mkEvent 'A' 'B' 200 7 2 64)])] ∧
        ((OrderBook.empty.apply (mkEvent 'A' 'B' 100 10 1 0)).apply
          (mkEvent 'A' 'B' 200 7 2 64)).offers =
        (OrderBook.empty.apply (mkEvent 'A' 'B' 100 10 1 0)).offers
      else ((OrderBook.empty.apply (mkEvent 'A' 'B' 100 10 1 0)).apply
          (mkEvent 'A' 'B' 200 7 2 64)).offers =
        [((mkEvent 'A' 'B' 200 7 2 64).price, [Ref.event (mkEvent 'A' 'B' 200 7 2 64)])] ∧
        ((OrderBook.empty.apply (mkEvent 'A' 'B' 100 10 1 0)).apply
          (mkEvent 'A' 'B' 200 7 2 64)).bids =
        (OrderBook.empty.apply (mkEvent 'A' 'B' 100 10 1 0)).bids) ∧
    (if (mkEvent 'A' 'B' 200 7 2 64).side = 'B'
      then (((OrderBook.empty.apply (mkEvent 'A' 'B' 100 10 1 0)).apply
          (mkEvent 'A' 'B' 200 7 2 64)).snapshot 2)[0]? =
        some ⟨(mkEvent 'A' 'B' 200 7 2 64).price, 0, 0⟩
      else (((OrderBook.empty.apply (mkEvent 'A' 'B' 100 10 1 0)).apply
          (mkEvent 'A' 'B' 200 7 2 64)).snapshot 2)[2]? =
        some ⟨(mkEvent 'A' 'B' 200 7 2 64).price, 0, 0⟩)) :=
  ⟨rfl, by decide, by decide, C6_flagged_add _ _ 2 rfl (by decide) (by decide)⟩

/-- C7: snapshot is modelled as a pure function of the book state (it
mutates nothing by construction, as the `const` method does) and produces
exactly `depth` rows per side: the bid rows walk the bid ladder in strictly
descending price order, then the ask rows walk the ask ladder in strictly
ascending price order, each side truncated at `depth` levels and padded
with the (undefined-price sentinel, 0, 0) row up to exactly `depth` rows. -/
theorem C7_snapshot_shape (b : OrderBook) (d : Nat)
    (h1 : LSorted b.bids) (h2 : LSorted b.offers) : snapshotSpec b d := by
  refine ⟨snapshot_length b d, ?_, ?_, ?_, ?_⟩
  · intro i hlo hhi
    rw [OrderBook.snapshot, List.getElem?_append,
      if_pos (by rw [sideRows_length]; exact hhi)]
    exact sideRows_getElem_pad _ _ _ _ (by simpa using hlo) hhi
  · intro i hlo hhi
    rw [OrderBook.snapshot,
      List.getElem?_append_right (by rw [sideRows_length]; omega)]
    rw [sideRows_length]
    exact sideRows_getElem_pad _ _ _ _ (by omega) (by omega)
  · rw [OrderBook.snapshot,
      List.take_append_of_le_length (by rw [sideRows_length]; omega)]
    rw [sideRows, List.take_left' (by simp)]
    refine List.pairwise_map.mpr ?_
    have hrev : b.bids.reverse.Pairwise (fun a c : Int × Level => c.1 < a.1) := by
      rw [List.pairwise_reverse]
      exact h1
    have htake := hrev.sublist (List.take_sublist d b.bids.reverse)
    exact htake.imp (fun hab => by simpa [levelRow] using hab)
  · rw [OrderBook.snapshot,
      List.drop_left' (sideRows_length b.orders b.bids.reverse d)]
    rw [sideRows, List.take_left' (by simp)]
    refine List.pairwise_map.mpr ?_
    have htake := h2.sublist (List.take_sublist d b.offers)
    exact htake.imp (fun hab => by simpa [levelRow] using hab)

/-- C7 witness: a sorted two-bid, one-ask book at depth 2. -/
theorem C7_witness :
    LSorted (((OrderBook.empty.apply (mkEvent 'A' 'B' 100 10 1 0)).apply
      (mkEvent 'A' 'B' 200 5 2 0)).apply (mkEvent 'A' 'A' 300 4 3 0)).bids ∧
    LSorted (((OrderBook.empty.apply (mkEvent 'A' 'B' 100 10 1 0)).apply
      (mkEvent 'A' 'B' 200 5 2 0)).apply (mkEvent 'A' 'A' 300 4 3 0)).offers ∧
    snapshotSpec (((OrderBook.empty.apply (mkEvent 'A' 'B' 100 10 1 0)).apply
      (mkEvent 'A' 'B' 200 5 2 0)).apply (mkEvent 'A' 'A' 300 4 3 0)) 2 :=
  ⟨by decide, by decide, C7_snapshot_shape _ 2 (by decide) (by decide)⟩

theorem mem_snapshot_of_mem_bids (bk : OrderBook) (e : Int × Level)
    (he : e ∈ bk.bids) (d : Nat) (hd : bk.bids.length ≤ d) :
    ∃ sz ct, (⟨e.1, sz, ct⟩ : PriceLevel) ∈ bk.snapshot d := by
  refine ⟨(levelAgg bk.orders e.2).1, (levelAgg bk.orders e.2).2, ?_⟩
  rw [OrderBook.snapshot]
  apply List.mem_append_left
  have hmem := mem_sideRows_of_mem bk.orders bk.bids.reverse d e
    (List.mem_reverse.mpr he) (by simpa using hd)
  simpa [levelRow] using hmem

theorem mem_snapshot_of_mem_offers (bk : OrderBook) (e : Int × Level)
    (he : e ∈ bk.offers) (d : Nat) (hd : bk.offers.length ≤ d) :
    ∃ sz ct, (⟨e.1, sz, ct⟩ : PriceLevel) ∈ bk.snapshot d := by
  refine ⟨(levelAgg bk.orders e.2).1, (levelAgg bk.orders e.2).2, ?_⟩
  rw [OrderBook.snapshot]
  apply List.mem_append_right
  have hmem := mem_sideRows_of_mem bk.orders bk.offers d e he hd
  simpa [levelRow] using hmem

/-- C10: a Modify carrying the top-of-book-replacement flag whose order id
is already registered keeps the order an ordinary registry entry whose
stored record becomes the Modify event itself — so its stored flags now
carry bit 6 — and therefore snapshot aggregation skips that order in any
level vector (its contribution to size and count is dropped), while the
level holding its reference still exists on the stored side's ladder at the
event's price and its price row appears in any snapshot of sufficient
depth. -/
theorem C10_flagged_modify_known (b : OrderBook) (m msg0 : MboMessage)
    (hM : m.action = 'M') (hflag : m.flags.testBit 6 = true)
    (hfind : ofind b.orders m.order_id = some msg0)
    (hloc : Ref.reg m.order_id ∈ lgetD (sideLadder b msg0.side) msg0.price) :
    ofind (b.apply m).orders m.order_id = some m ∧
    (∃ e ∈ (if msg0.side = 'B' then (b.apply m).bids else (b.apply m).offers),
       e.1 = m.price ∧ Ref.reg m.order_id ∈ e.2) ∧
    (∀ v : Level, levelAgg (b.apply m).orders v =
       levelAgg (b.apply m).orders (v.filter (fun r => r ≠ Ref.reg m.order_id))) ∧
    (∀ d, (if msg0.side = 'B' then (b.apply m).bids
           else (b.apply m).offers).length ≤ d →
       ∃ sz ct, (⟨m.price, sz, ct⟩ : PriceLevel) ∈ (b.apply m).snapshot d) := by
  have happ : b.apply m = b.modify m := by simp [OrderBook.apply, hM]
  have horders : (b.apply m).orders = oset b.orders m.order_id m := by
    rw [happ]
    simp only [OrderBook.modify, hfind]
    split_ifs <;> rfl
  have h1c : ofind (b.apply m).orders m.order_id = some m := by
    rw [horders]
    exact ofind_oset_self m hfind
  have h3c : ∀ v : Level, levelAgg (b.apply m).orders v =
      levelAgg (b.apply m).orders (v.filter (fun r => r ≠ Ref.reg m.order_id)) :=
    fun v => levelAgg_filter_flagged _ _ m h1c hflag v
  have h2c : ∃ e ∈ (if msg0.side = 'B' then (b.apply m).bids
      else (b.apply m).offers), e.1 = m.price ∧ Ref.reg m.order_id ∈ e.2 := by
    by_cases hsd : msg0.side = 'B'
    · rw [if_pos hsd]
      by_cases hbp : msg0.price ≠ m.price
      · have hlad : (b.apply m).bids =
            lset (if (lgetD b.bids msg0.price).filter
                    (fun r => r ≠ Ref.reg m.order_id) = []
                  then lerase b.bids msg0.price
                  else lset b.bids msg0.price
                    ((lgetD b.bids msg0.price).filter
                      (fun r => r ≠ Ref.reg m.order_id)))
              m.price
              (lgetD (if (lgetD b.bids msg0.price).filter
                        (fun r => r ≠ Ref.reg m.order_id) = []
                      then lerase b.bids msg0.price
                      else lset b.bids msg0.price
                        ((lgetD b.bids msg0.price).filter
                          (fun r => r ≠ Ref.reg m.order_id)))
                m.price ++ [Ref.reg m.order_id]) := by
          simp [OrderBook.apply, hM, OrderBook.modify, hfind, hsd, hbp]
        rw [hlad]
        exact ⟨(m.price, _), mem_of_lget_eq_some (lget_lset_self _ _ _), rfl,
          List.mem_append_right _ (by simp)⟩
      · have hpeq : msg0.price = m.price := not_not.mp hbp
        by_cases hsz : msg0.size < m.size
        · have hlad : (b.apply m).bids = lset b.bids msg0.price
              ((lgetD b.bids msg0.price).filter (fun r => r ≠ Ref.reg m.order_id) ++
                [Ref.reg m.order_id]) := by
            simp [OrderBook.apply, hM, OrderBook.modify, hfind, hsd, hbp, hsz]
          rw [hlad]
          exact ⟨(msg0.price, _), mem_of_lget_eq_some (lget_lset_self _ _ _), hpeq,
            List.mem_append_right _ (by simp)⟩
        · have hlad : (b.apply m).bids = b.bids := by
            simp [OrderBook.apply, hM, OrderBook.modify, hfind, hsd, hbp, hsz]
          rw [hlad]
          rw [sideLadder, if_pos hsd] at hloc
          rcases hv : lget b.bids msg0.price with _ | v
          · rw [lgetD, hv] at hloc; simp at hloc
          · rw [lgetD, hv] at hloc
            exact ⟨(msg0.price, v), mem_of_lget_eq_some hv, hpeq, hloc⟩
    · rw [if_neg hsd]
      by_cases hbp : msg0.price ≠ m.price
      · have hlad : (b.apply m).offers =
            lset (if (lgetD b.offers msg0.price).filter
                    (fun r => r ≠ Ref.reg m.order_id) = []
                  then lerase b.offers msg0.price
                  else lset b.offers msg0.price
                    ((lgetD b.offers msg0.price).filter
                      (fun r => r ≠ Ref.reg m.order_id)))
              m.price
              (lgetD (if (lgetD b.offers msg0.price).filter
                        (fun r => r ≠ Ref.reg m.order_id) = []
                      then lerase b.offers msg0.price
                      else lset b.offers msg0.price
                        ((lgetD b.offers msg0.price).filter
                          (fun r => r ≠ Ref.reg m.order_id)))
                m.price ++ [Ref.reg m.order_id]) := by
          simp [OrderBook.apply, hM, OrderBook.modify, hfind, hsd, hbp]
        rw [hlad]
        exact ⟨(m.price, _), mem_of_lget_eq_some (lget_lset_self _ _ _), rfl,
          List.mem_append_right _ (by simp)⟩
      · have hpeq : msg0.price = m.price := not_not.mp hbp
        by_cases hsz : msg0.size < m.size
        · have hlad : (b.apply m).offers = lset b.offers msg0.price
              ((lgetD b.offers msg0.price).filter (fun r => r ≠ Ref.reg m.order_id) ++
                [Ref.reg m.order_id]) := by
            simp [OrderBook.apply, hM, OrderBook.modify, hfind, hsd, hbp, hsz]
          rw [hlad]
          exact ⟨(msg0.price, _), mem_of_lget_eq_some (lget_lset_self _ _ _), hpeq,
            List.mem_append_right _ (by simp)⟩
        · have hlad : (b.apply m).offers = b.offers := by
            simp [OrderBook.apply, hM, OrderBook.modify, hfind, hsd, hbp, hsz]
          rw [hlad]
          rw [sideLadder, if_neg hsd] at hloc
          rcases hv : lget b.offers msg0.price with _ | v
          · rw [lgetD, hv] at hloc; simp at hloc
          · rw [lgetD, hv] at hloc
            exact ⟨(msg0.price, v), mem_of_lget_eq_some hv, hpeq, hloc⟩
  refine ⟨h1c, h2c, h3c, ?_⟩
  intro d hd
  obtain ⟨e, hmem, hp, _⟩ := h2c
  by_cases hsd : msg0.side = 'B'
  · rw [if_pos hsd] at hmem
    rw [if_pos hsd] at hd
    have := mem_snapshot_of_mem_bids (b.apply m) e hmem d hd
    rw [hp] at this
    exact this
  · rw [if_neg hsd] at hmem
    rw [if_neg hsd] at hd
    have := mem_snapshot_of_mem_offers (b.apply m) e hmem d hd
    rw [hp] at this
    exact this

/-- C10 witness: a flagged in-place Modify of the only resting bid order. -/
theorem C10_witness :
    (mkEvent 'M' 'B' 100 8 1 64).action = 'M' ∧
    (mkEvent 'M' 'B' 100 8 1 64).flags.testBit 6 = true ∧
    ofind (OrderBook.empty.apply (mkEvent 'A' 'B' 100 10 1 0)).orders
      (mkEvent 'M' 'B' 100 8 1 64).order_id = some (mkEvent 'A' 'B' 100 10 1 0) ∧
    Ref.reg (mkEvent 'M' 'B' 100 8 1 64).order_id ∈
      lgetD (sideLadder (OrderBook.empty.apply (mkEvent 'A' 'B' 100 10 1 0))
        (mkEvent 'A' 'B' 100 10 1 0).side) (mkEvent 'A' 'B' 100 10 1 0).price ∧
    (ofind ((OrderBook.empty.apply (mkEvent 'A' 'B' 100 10 1 0)).apply
        (mkEvent 'M' 'B' 100 8 1 64)).orders (mkEvent 'M' 'B' 100 8 1 64).order_id =
      some (mkEvent 'M' 'B' 100 8 1 64) ∧
    (∃ e ∈ (if (mkEvent 'A' 'B' 100 10 1 0).side = 'B'
        then ((OrderBook.empty.apply (mkEvent 'A' 'B' 100 10 1 0)).apply
          (mkEvent 'M' 'B' 100 8 1 64)).bids
        else ((OrderBook.empty.apply (mkEvent 'A' 'B' 100 10 1 0)).apply
          (mkEvent 'M' 'B' 100 8 1 64)).offers),
       e.1 = (mkEvent 'M' 'B' 100 8 1 64).price ∧
       Ref.reg (mkEvent 'M' 'B' 100 8 1 64).order_id ∈ e.2) ∧
    (∀ v : Level, levelAgg ((OrderBook.empty.apply (mkEvent 'A' 'B' 100 10 1 0)).apply
        (mkEvent 'M' 'B' 100 8 1 64)).orders v =
      levelAgg ((OrderBook.empty.apply (mkEvent 'A' 'B' 100 10 1 0)).apply
        (mkEvent 'M' 'B' 100 8 1 64)).orders
        (v.filter (fun r => r ≠ Ref.reg (mkEvent 'M' 'B' 100 8 1 64).order_id))) ∧
    (∀ d, (if (mkEvent 'A' 'B' 100 10 1 0).side = 'B'
        then ((OrderBook.empty.apply (mkEvent 'A' 'B' 100 10 1 0)).apply
          (mkEvent 'M' 'B' 100 8 1 64)).bids
        else ((OrderBook.empty.apply (mkEvent 'A' 'B' 100 10 1 0)).apply
          (mkEvent 'M' 'B' 100 8 1 64)).offers).length ≤ d →
       ∃ sz ct, (⟨(mkEvent 'M' 'B' 100 8 1 64).price, sz, ct⟩ : PriceLevel) ∈
         ((OrderBook.empty.apply (mkEvent 'A' 'B' 100 10 1 0)).apply
           (mkEvent 'M' 'B' 100 8 1 64)).snapshot d)) :=
  ⟨rfl, by decide, by decide, by decide,
    C10_flagged_modify_known _ _ _ rfl (by decide) (by decide) (by decide)⟩

/-- C5 (amended): for every Cancel event whose side selects the same ladder
as the stored order's side: an absent order id leaves the book unchanged;
otherwise the tracked size decreases by exactly min(requested, remaining) —
never below zero — and the order is re-appended to its level with the
reduced size, or, when the size reaches zero, it is deleted from the
registry and from every ladder (so no later snapshot can aggregate it),
with the level erased when left empty.  Without the matching-side
hypothesis the claim is false (see the counterexample). -/
theorem C5_cancel (b : OrderBook) (m : MboMessage) (hInv : InvBook b)
    (hC : m.action = 'C') (hsideOk : sideOk b m = true) : cancelSpec b m := by
  obtain ⟨hnd, hsb, hso, hkey, hcnt, hbb, hbo⟩ := hInv
  have happ : b.apply m = b.cancel m := by simp [OrderBook.apply, hC]
  constructor
  · intro hnone
    rw [happ]
    simp [OrderBook.cancel, hnone]
  · intro msg0 hfind
    have hiff : (m.side = 'B') ↔ (msg0.side = 'B') := by
      have h := hsideOk
      simp only [sideOk, hfind] at h
      exact beq_side_iff h
    have hmem0 := mem_of_ofind_eq_some hfind
    obtain ⟨hc1, hc2⟩ := hcnt _ hmem0
    simp only at hc1 hc2
    have hns : (if msg0.size > m.size then msg0.size - m.size else 0) =
        msg0.size - min m.size msg0.size := by split_ifs <;> omega
    by_cases hbid : m.side = 'B'
    · have hbs : msg0.side = 'B' := hiff.mp hbid
      rw [sideLadder, if_pos hbs] at hc2
      have hcle := lgetD_count_le_lcount hsb msg0.price m.order_id
      have hsplit0 := lcount_split m.order_id msg0.price hsb
      have hLb : lcount m.order_id b.bids = 1 := by omega
      have hLo : lcount m.order_id b.offers = 0 := by omega
      have hlerase0 : lcount m.order_id (lerase b.bids msg0.price) = 0 := by omega
      constructor
      · intro hnz
        have hz : ¬ (if msg0.size > m.size then msg0.size - m.size else 0) = 0 := by
          rw [hns]; exact hnz
        have hbook : b.cancel m = ⟨oset b.orders m.order_id
            {msg0 with size := if msg0.size > m.size then msg0.size - m.size else 0},
            lset b.bids msg0.price
              ((lgetD b.bids msg0.price).filter (fun r => r ≠ Ref.reg m.order_id) ++
                [Ref.reg m.order_id]), b.offers⟩ := by
          simp [OrderBook.cancel, hfind, hbid, hz]
        rw [happ, hbook]
        constructor
        · rw [← hns]
          exact ofind_oset_self _ hfind
        · simp only [sideLadder, hbid, if_pos]
          rw [lgetD, lget_lset_self, Option.getD_some]
      · intro hzz
        have hz : (if msg0.size > m.size then msg0.size - m.size else 0) = 0 := by
          rw [hns]; exact hzz
        by_cases hv1 :
            (lgetD b.bids msg0.price).filter (fun r => r ≠ Ref.reg m.order_id) = []
        · have hv1' : (lgetD b.bids msg0.price).filter
              (fun r => !decide (r = Ref.reg m.order_id)) = [] := by
            simpa only [ne_eq, decide_not] using hv1
          have hbook : b.cancel m =
              ⟨oerase (oset b.orders m.order_id {msg0 with size := 0}) m.order_id,
                lerase b.bids msg0.price, b.offers⟩ := by
            simp [OrderBook.cancel, hfind, hbid, hz, hv1']
          rw [happ, hbook]
          refine ⟨ofind_oerase_self _ _, by simpa using ⟨hlerase0, hLo⟩, ?_⟩
          intro _
          simp only [sideLadder, hbid, if_pos]
          exact lget_lerase_self _ _
        · have hv1' : ¬ (lgetD b.bids msg0.price).filter
              (fun r => !decide (r = Ref.reg m.order_id)) = [] := by
            simpa only [ne_eq, decide_not] using hv1
          have hbook : b.cancel m =
              ⟨oerase (oset b.orders m.order_id {msg0 with size := 0}) m.order_id,
                lset b.bids msg0.price
                  ((lgetD b.bids msg0.price).filter (fun r => r ≠ Ref.reg m.order_id)),
                b.offers⟩ := by
            simp [OrderBook.cancel, hfind, hbid, hz, hv1']
          rw [happ, hbook]
          refine ⟨ofind_oerase_self _ _, ?_, ?_⟩
          · have hlk := lcount_lset m.order_id msg0.price
              ((lgetD b.bids msg0.price).filter (fun r => r ≠ Ref.reg m.order_id)) hsb
            rw [count_filter_ne_self] at hlk
            simp only
            omega
          · intro hveq
            simp only [sideLadder, hbid, if_pos] at hveq
            exact absurd hveq hv1
    · have hbs : ¬ msg0.side = 'B' := fun h => hbid (hiff.mpr h)
      rw [sideLadder, if_neg hbs] at hc2
      have hcle := lgetD_count_le_lcount hso msg0.price m.order_id
      have hsplit0 := lcount_split m.order_id msg0.price hso
      have hLo : lcount m.order_id b.offers = 1 := by omega
      have hLb : lcount m.order_id b.bids = 0 := by omega
      have hlerase0 : lcount m.order_id (lerase b.offers msg0.price) = 0 := by omega
      constructor
      · intro hnz
        have hz : ¬ (if msg0.size > m.size then msg0.size - m.size else 0) = 0 := by
          rw [hns]; exact hnz
        have hbook : b.cancel m = ⟨oset b.orders m.order_id
            {msg0 with size := if msg0.size > m.size then msg0.size - m.size else 0},
            b.bids,
            lset b.offers msg0.price
              ((lgetD b.offers msg0.price).filter (fun r => r ≠ Ref.reg m.order_id) ++
                [Ref.reg m.order_id])⟩ := by
          simp [OrderBook.cancel, hfind, hbid, hz]
        rw [happ, hbook]
        constructor
        · rw [← hns]
          exact ofind_oset_self _ hfind
        · simp only [sideLadder, hbid, if_neg, not_false_iff]
          rw [lgetD, lget_lset_self, Option.getD_some]
      · intro hzz
        have hz : (if msg0.size > m.size then msg0.size - m.size else 0) = 0 := by
          rw [hns]; exact hzz
        by_cases hv1 :
            (lgetD b.offers msg0.price).filter (fun r => r ≠ Ref.reg m.order_id) = []
        · have hv1' : (lgetD b.offers msg0.price).filter
              (fun r => !decide (r = Ref.reg m.order_id)) = [] := by
            simpa only [ne_eq, decide_not] using hv1
          have hbook : b.cancel m =
              ⟨oerase (oset b.orders m.order_id {msg0 with size := 0}) m.order_id,
                b.bids, lerase b.offers msg0.price⟩ := by
            simp [OrderBook.cancel, hfind, hbid, hz, hv1']
          rw [happ, hbook]
          refine ⟨ofind_oerase_self _ _, by simpa using ⟨hLb, hlerase0⟩, ?_⟩
          intro _
          simp only [sideLadder, hbid, if_neg, not_false_iff]
          exact lget_lerase_self _ _
        · have hv1' : ¬ (lgetD b.offers msg0.price).filter
              (fun r => !decide (r = Ref.reg m.order_id)) = [] := by
            simpa only [ne_eq, decide_not] using hv1
          have hbook : b.cancel m =
              ⟨oerase (oset b.orders m.order_id {msg0 with size := 0}) m.order_id,
                b.bids,
                lset b.offers msg0.price
                  ((lgetD b.offers msg0.price).filter (fun r => r ≠ Ref.reg m.order_id))⟩ := by
            simp [OrderBook.cancel, hfind, hbid, hz, hv1']
          rw [happ, hbook]
          refine ⟨ofind_oerase_self _ _, ?_, ?_⟩
          · have hlk := lcount_lset m.order_id msg0.price
              ((lgetD b.offers msg0.price).filter (fun r => r ≠ Ref.reg m.order_id)) hso
            rw [count_filter_ne_self] at hlk
            simp only
            omega
          · intro hveq
            simp only [sideLadder, hbid, if_neg, not_false_iff] at hveq
            exact absurd hveq hv1

/-- C5 counterexample: cancelling the full remaining size of bid order 1
with a Cancel carrying the opposite side deletes the order from the
registry but leaves its reference in its bid level, contradicting the
claim that a Cancel driving the size to zero deletes the order from its
level and from all subsequent snapshots' inputs. -/
theorem C5_counterexample :
    ofind ((OrderBook.empty.apply (mkEvent 'A' 'B' 100 5 1 0)).apply
      (mkEvent 'C' 'A' 100 5 1 0)).orders 1 = none ∧
    lcount 1 ((OrderBook.empty.apply (mkEvent 'A' 'B' 100 5 1 0)).apply
      (mkEvent 'C' 'A' 100 5 1 0)).bids = 1 :=
  ⟨by decide, by decide⟩

/-- C5 witness: a matching-side partial Cancel of the only resting order. -/
theorem C5_witness :
    InvBook (OrderBook.empty.apply (mkEvent 'A' 'B' 100 10 1 0)) ∧
    (mkEvent 'C' 'B' 100 4 1 0).action = 'C' ∧
    sideOk (OrderBook.empty.apply (mkEvent 'A' 'B' 100 10 1 0))
      (mkEvent 'C' 'B' 100 4 1 0) = true ∧
    cancelSpec (OrderBook.empty.apply (mkEvent 'A' 'B' 100 10 1 0))
      (mkEvent 'C' 'B' 100 4 1 0) :=
  ⟨by decide, rfl, by decide, C5_cancel _ _ (by decide) rfl (by decide)⟩

/-- C9 counterexample: the claim's premise "event side differs from the
resting order's side" does not coincide with selecting a different ladder —
side `N` and side `A` both select the offers.  For resting offers-side
orders 1 and 2 and a Cancel of order 1 carrying side `N` (different from
the stored side `A`) with nonzero reduced size, no reference is appended to
the opposite (bid) ladder, and the order's reference IS removed from its
true level and re-appended at the back — refuting the claim as stated. -/
theorem C9_counterexample :
    ofind ((OrderBook.empty.apply (mkEvent 'A' 'A' 100 5 1 0)).apply
      (mkEvent 'A' 'A' 100 5 2 0)).orders 1 = some (mkEvent 'A' 'A' 100 5 1 0) ∧
    (mkEvent 'C' 'N' 100 3 1 0).side ≠ (mkEvent 'A' 'A' 100 5 1 0).side ∧
    lcount 1 (((OrderBook.empty.apply (mkEvent 'A' 'A' 100 5 1 0)).apply
      (mkEvent 'A' 'A' 100 5 2 0)).apply (mkEvent 'C' 'N' 100 3 1 0)).bids = 0 ∧
    lgetD (((OrderBook.empty.apply (mkEvent 'A' 'A' 100 5 1 0)).apply
      (mkEvent 'A' 'A' 100 5 2 0)).apply (mkEvent 'C' 'N' 100 3 1 0)).offers 100 =
      [Ref.reg 2, Ref.reg 1] :=
  ⟨by decide, by decide, by decide, by decide⟩

/-- C9 (amended): a Cancel selects the ladder by the event's own side
field through the same `== Side::B` test the book uses everywhere, so for
every Cancel of a known order whose event side selects a DIFFERENT ladder
than the stored side (exactly one of the two sides is `B`), the stored
order's own ladder is completely untouched — its reference is never removed
— and the engine appends a reference into the event-side ladder at the
stored price when the reduced size is nonzero, or deletes the order from
the registry while leaving its old reference behind in its original level
when the reduced size is zero. -/
theorem C9_cancel_wrong_ladder (b : OrderBook) (m msg0 : MboMessage)
    (hInv : InvBook b) (hC : m.action = 'C')
    (hfind : ofind b.orders m.order_id = some msg0)
    (hmis : (m.side = 'B') ↔ ¬ (msg0.side = 'B')) :
    cancelMismatchSpec b m msg0 := by
  obtain ⟨hnd, hsb, hso, hkey, hcnt, hbb, hbo⟩ := hInv
  have happ : b.apply m = b.cancel m := by simp [OrderBook.apply, hC]
  have hmem0 := mem_of_ofind_eq_some hfind
  obtain ⟨hc1, hc2⟩ := hcnt _ hmem0
  simp only at hc1 hc2
  have hns : (if msg0.size > m.size then msg0.size - m.size else 0) =
      msg0.size - min m.size msg0.size := by split_ifs <;> omega
  unfold cancelMismatchSpec
  by_cases hbid : m.side = 'B'
  · -- stored on offers, event writes bids
    have hbs : ¬ msg0.side = 'B' := hmis.mp hbid
    rw [sideLadder, if_neg hbs] at hc2
    have hcle := lgetD_count_le_lcount hso msg0.price m.order_id
    have hsplit0 := lcount_split m.order_id msg0.price hso
    have hLo : lcount m.order_id b.offers = 1 := by omega
    have hLb : lcount m.order_id b.bids = 0 := by omega
    have hnob : ∀ r ∈ lgetD b.bids msg0.price, r ≠ Ref.reg m.order_id := by
      intro r hr heq
      subst heq
      rcases hv : lget b.bids msg0.price with _ | v
      · rw [lgetD, hv] at hr; simp at hr
      · rw [lgetD, hv] at hr
        have h0 := hLb
        rw [lcount_eq_zero_iff] at h0
        exact h0 _ (mem_of_lget_eq_some hv) hr
    have hfilter : (lgetD b.bids msg0.price).filter
        (fun r => r ≠ Ref.reg m.order_id) = lgetD b.bids msg0.price := by
      apply List.filter_eq_self.mpr
      intro r hr
      simpa using hnob r hr
    by_cases hzq : msg0.size - min m.size msg0.size = 0
    · have hz : (if msg0.size > m.size then msg0.size - m.size else 0) = 0 := by
        rw [hns]; exact hzq
      by_cases hv1 :
          (lgetD b.bids msg0.price).filter (fun r => r ≠ Ref.reg m.order_id) = []
      · have hv1' : (lgetD b.bids msg0.price).filter
            (fun r => !decide (r = Ref.reg m.order_id)) = [] := by
          simpa only [ne_eq, decide_not] using hv1
        have hbook : b.cancel m =
            ⟨oerase (oset b.orders m.order_id {msg0 with size := 0}) m.order_id,
              lerase b.bids msg0.price, b.offers⟩ := by
          simp [OrderBook.cancel, hfind, hbid, hz, hv1']
        rw [happ, hbook]
        refine ⟨by simp [sideLadder, hbs], fun hnz => absurd hzq hnz, fun _ => ?_⟩
        refine ⟨ofind_oerase_self _ _, ?_⟩
        simp only [sideLadder, hbs, if_neg, not_false_iff]
        omega
      · have hv1' : ¬ (lgetD b.bids msg0.price).filter
            (fun r => !decide (r = Ref.reg m.order_id)) = [] := by
          simpa only [ne_eq, decide_not] using hv1
        have hbook : b.cancel m =
            ⟨oerase (oset b.orders m.order_id {msg0 with size := 0}) m.order_id,
              lset b.bids msg0.price
                ((lgetD b.bids msg0.price).filter (fun r => r ≠ Ref.reg m.order_id)),
              b.offers⟩ := by
          simp [OrderBook.cancel, hfind, hbid, hz, hv1']
        rw [happ, hbook]
        refine ⟨by simp [sideLadder, hbs], fun hnz => absurd hzq hnz, fun _ => ?_⟩
        refine ⟨ofind_oerase_self _ _, ?_⟩
        simp only [sideLadder, hbs, if_neg, not_false_iff]
        omega
    · have hz : ¬ (if msg0.size > m.size then msg0.size - m.size else 0) = 0 := by
        rw [hns]; exact hzq
      have hbook : b.cancel m = ⟨oset b.orders m.order_id
          {msg0 with size := if msg0.size > m.size then msg0.size - m.size else 0},
          lset b.bids msg0.price
            ((lgetD b.bids msg0.price).filter (fun r => r ≠ Ref.reg m.order_id) ++
              [Ref.reg m.order_id]), b.offers⟩ := by
        simp [OrderBook.cancel, hfind, hbid, hz]
      rw [happ, hbook]
      refine ⟨by simp [sideLadder, hbs], fun _ => ?_, fun h0 => absurd h0 hzq⟩
      simp only [sideLadder, hbid, if_pos]
      rw [lgetD, lget_lset_self, Option.getD_some, hfilter]
  · -- stored on bids, event writes offers
    have hbs : msg0.side = 'B' := by
      by_contra hc
      exact hbid (hmis.mpr hc)
    rw [sideLadder, if_pos hbs] at hc2
    have hcle := lgetD_count_le_lcount hsb msg0.price m.order_id
    have hsplit0 := lcount_split m.order_id msg0.price hsb
    have hLb : lcount m.order_id b.bids = 1 := by omega
    have hLo : lcount m.order_id b.offers = 0 := by omega
    have hnob : ∀ r ∈ lgetD b.offers msg0.price, r ≠ Ref.reg m.order_id := by
      intro r hr heq
      subst heq
      rcases hv : lget b.offers msg0.price with _ | v
      · rw [lgetD, hv] at hr; simp at hr
      · rw [lgetD, hv] at hr
        have h0 := hLo
        rw [lcount_eq_zero_iff] at h0
        exact h0 _ (mem_of_lget_eq_some hv) hr
    have hfilter : (lgetD b.offers msg0.price).filter
        (fun r => r ≠ Ref.reg m.order_id) = lgetD b.offers msg0.price := by
      apply List.filter_eq_self.mpr
      intro r hr
      simpa using hnob r hr
    by_cases hzq : msg0.size - min m.size msg0.size = 0
    · have hz : (if msg0.size > m.size then msg0.size - m.size else 0) = 0 := by
        rw [hns]; exact hzq
      by_cases hv1 :
          (lgetD b.offers msg0.price).filter (fun r => r ≠ Ref.reg m.order_id) = []
      · have hv1' : (lgetD b.offers msg0.price).filter
            (fun r => !decide (r = Ref.reg m.order_id)) = [] := by
          simpa only [ne_eq, decide_not] using hv1
        have hbook : b.cancel m =
            ⟨oerase (oset b.orders m.order_id {msg0 with size := 0}) m.order_id,
              b.bids, lerase b.offers msg0.price⟩ := by
          simp [OrderBook.cancel, hfind, hbid, hz, hv1']
        rw [happ, hbook]
        refine ⟨by simp [sideLadder, hbs], fun hnz => absurd hzq hnz, fun _ => ?_⟩
        refine ⟨ofind_oerase_self _ _, ?_⟩
        simp only [sideLadder, hbs, if_pos]
        omega
      · have hv1' : ¬ (lgetD b.offers msg0.price).filter
            (fun r => !decide (r = Ref.reg m.order_id)) = [] := by
          simpa only [ne_eq, decide_not] using hv1
        have hbook : b.cancel m =
            ⟨oerase (oset b.orders m.order_id {msg0 with size := 0}) m.order_id,
              b.bids,
              lset b.offers msg0.price
                ((lgetD b.offers msg0.price).filter (fun r => r ≠ Ref.reg m.order_id))⟩ := by
          simp [OrderBook.cancel, hfind, hbid, hz, hv1']
        rw [happ, hbook]
        refine ⟨by simp [sideLadder, hbs], fun hnz => absurd hzq hnz, fun _ => ?_⟩
        refine ⟨ofind_oerase_self _ _, ?_⟩
        simp only [sideLadder, hbs, if_pos]
        omega
    · have hz : ¬ (if msg0.size > m.size then msg0.size - m.size else 0) = 0 := by
        rw [hns]; exact hzq
      have hbook : b.cancel m = ⟨oset b.orders m.order_id
          {msg0 with size := if msg0.size > m.size then msg0.size - m.size else 0},
          b.bids,
          lset b.offers msg0.price
            ((lgetD b.offers msg0.price).filter (fun r => r ≠ Ref.reg m.order_id) ++
              [Ref.reg m.order_id])⟩ := by
        simp [OrderBook.cancel, hfind, hbid, hz]
      rw [happ, hbook]
      refine ⟨by simp [sideLadder, hbs], fun _ => ?_, fun h0 => absurd h0 hzq⟩
      simp only [sideLadder, hbid, if_neg, not_false_iff]
      rw [lgetD, lget_lset_self, Option.getD_some, hfilter]

/-- C9 witness: a mismatched-side partial Cancel of a resting ask order. -/
theorem C9_witness :
    InvBook (OrderBook.empty.apply (mkEvent 'A' 'A' 100 5 1 0)) ∧
    (mkEvent 'C' 'B' 100 3 1 0).action = 'C' ∧
    ofind (OrderBook.empty.apply (mkEvent 'A' 'A' 100 5 1 0)).orders
      (mkEvent 'C' 'B' 100 3 1 0).order_id = some (mkEvent 'A' 'A' 100 5 1 0) ∧
    (((mkEvent 'C' 'B' 100 3 1 0).side = 'B') ↔
      ¬ ((mkEvent 'A' 'A' 100 5 1 0).side = 'B')) ∧
    cancelMismatchSpec (OrderBook.empty.apply (mkEvent 'A' 'A' 100 5 1 0))
      (mkEvent 'C' 'B' 100 3 1 0) (mkEvent 'A' 'A' 100 5 1 0) :=
  ⟨by decide, rfl, by decide, by decide,
    C9_cancel_wrong_ladder _ _ _ (by decide) rfl (by decide) (by decide)⟩

/-- C8 counterexample: the decoded fixed-point value of the textual price
100.000000001 — expressible at 1e-9 resolution — is exactly 100000000001,
but re-encoding it through `std::to_string(price / 1e9)` renders only six
decimal places, producing the numeric value 100 rather than 100.000000001:
the round trip loses the sub-micro digits. -/
theorem C8_counterexample :
    decodePrice (100 + 1/1000000000) = 100000000001 ∧
    encodePrice (decodePrice (100 + 1/1000000000)) ≠ 100 + 1/1000000000 := by
  have h1 : ((100:ℚ) + 1/1000000000) * 1000000000 = 100000000001 := by norm_num
  have h2 : decodePrice (100 + 1/1000000000) = 100000000001 := by
    rw [decodePrice, h1, truncZ]
    norm_num
  refine ⟨h2, ?_⟩
  rw [h2, encodePrice]
  have h3 : ((100000000001:Int):ℚ) / 1000000000 * 1000000 = 100000000 + 1/1000 := by
    norm_num
  rw [h3]
  have h4 : round ((100000000:ℚ) + 1/1000) = 100000000 := by
    rw [round_eq]
    rw [Int.floor_eq_iff]
    · constructor
      · push_cast
        norm_num
      · push_cast
        norm_num
  rw [h4]
  norm_num

/-- C8 (amended): for a price expressible at 1e-6 resolution whose
scale-1e9 fixed-point value n is a multiple of 1000 and at most 2^53 —
within int64, and small enough that the encoder's int64→double conversion
is exact and the double division's rounding stays far below the
half-of-1e-6 rendering threshold — every fixed-point integer d within one
1e-9 unit of n (the envelope containing every integer the long double
parse-multiply-truncate decode can produce for this price) re-encodes
through the six-decimal rendering to exactly the original numeric price,
in a nonempty output field.  The undefined-price sentinel renders as an
empty field, never as zero, and an empty input field produces the
sentinel.  Prices expressible only at 1e-9 resolution do not round-trip
(the C8 counterexample). -/
theorem C8_price_roundtrip_micro (n : Nat) (hn : n ≤ 9007199254740992)
    (hdvd : 1000 ∣ n) (d : Int) (hd : (d - (n : Int)).natAbs ≤ 1) :
    encodePriceField d = some ((n : ℚ) / 1000000000) ∧
    encodePrice d = (n : ℚ) / 1000000000 ∧
    encodePriceField PRICE_UNDEF = none ∧
    parsePriceField none = PRICE_UNDEF := by
  have hne : d ≠ PRICE_UNDEF := by
    rw [PRICE_UNDEF]
    omega
  obtain ⟨k, hk⟩ := hdvd
  subst hk
  have hrb : -1 ≤ d - 1000 * (k : Int) ∧ d - 1000 * (k : Int) ≤ 1 := by
    omega
  have hds : (d : ℚ) = 1000 * (k : ℚ) + ((d - 1000 * (k : Int) : Int) : ℚ) := by
    push_cast
    ring
  have hrQ : -1 ≤ ((d - 1000 * (k : Int) : Int) : ℚ) ∧
      ((d - 1000 * (k : Int) : Int) : ℚ) ≤ 1 := by
    constructor
    · exact_mod_cast hrb.1
    · exact_mod_cast hrb.2
  have hq : (d : ℚ) / 1000000000 * 1000000 =
      (k : ℚ) + ((d - 1000 * (k : Int) : Int) : ℚ) / 1000 := by
    rw [hds]
    field_simp
    ring
  have hround : round ((k : ℚ) + ((d - 1000 * (k : Int) : Int) : ℚ) / 1000) =
      (k : Int) := by
    rw [round_eq, Int.floor_eq_iff]
    constructor
    · push_cast
      linarith [hrQ.1]
    · push_cast
      linarith [hrQ.2]
  have hENC : encodePrice d = ((1000 * k : ℕ) : ℚ) / 1000000000 := by
    rw [encodePrice, hq, hround]
    push_cast
    field_simp
    ring
  exact ⟨by rw [encodePriceField, if_neg hne, hENC], hENC,
    by rw [encodePriceField, if_pos rfl], rfl⟩

/-- C8 witness: price 100.5 (fixed-point 100500000000, a multiple of 1000,
far below 2^53); the decoded integer 100500000001, one 1e-9 unit off,
still re-encodes to exactly 100.5 at six decimals. -/
theorem C8_witness :
    ((100500000000 : Nat) ≤ 9007199254740992 ∧
    1000 ∣ (100500000000 : Nat) ∧
    ((100500000001 : Int) - ((100500000000 : Nat) : Int)).natAbs ≤ 1) ∧
    (encodePriceField (100500000001 : Int) =
        some (((100500000000 : Nat) : ℚ) / 1000000000) ∧
    encodePrice (100500000001 : Int) =
        ((100500000000 : Nat) : ℚ) / 1000000000 ∧
    encodePriceField PRICE_UNDEF = none ∧
    parsePriceField none = PRICE_UNDEF) :=
  ⟨⟨by decide, by decide, by decide⟩,
    C8_price_roundtrip_micro 100500000000 (by decide) (by decide)
      100500000001 (by decide)⟩
